import Mathlib

/-!
# Verification of the PATHFINDER-WEB timeline ingestion core

Shallow embedding of `src/services/timeline/{json_parser,converter,validator,config}.py`.

Conventions of the embedding:
* Parsed JSON documents (the Python objects produced by `json.loads` /
  `ijson`) are modelled by the inductive type `JVal`; the Python value
  `None` and the JSON literal `null` coincide and are both `JVal.jnull`.
  Objects are association lists in source order; `json.loads` collapses
  duplicate keys keeping the last occurrence, which the object accessors
  reproduce (`lookupLast`).
* Python `float` values are modelled by `ℚ`.  Every numeric literal and
  every string-to-number conversion exercised by the claims denotes an
  exact decimal fraction, so the rational model is exact; non-finite
  floats (`inf`/`nan`) and the underscore digit-group syntax of
  `float(str)` are outside the model and those input strings are treated
  as conversion failures.
* Functions that can raise an exception return an `Option` (`none`
  meaning "an exception escaped to the caller"); the validator's mutable
  `errors`/`warnings` lists are modelled in writer style: each function
  additionally returns the list of messages it appends, and a parsing
  session's summary is the concatenation of those lists.
-/

/-! String primitives over character lists.  (The library's
`String.replace`/`splitOn`/`trim` are behaviourally identical on the
nonempty patterns used here, but are compiled by well-founded recursion;
these fuelled structural versions also evaluate inside the kernel.) -/

/-- Left-to-right non-overlapping replacement, as `str.replace`;
`fuel ≥ cs.length` suffices. -/
def replaceChars (pat rep : List Char) : Nat → List Char → List Char
  | _, [] => []
  | 0, cs => cs
  | fuel + 1, c :: cs =>
    if pat.isPrefixOf (c :: cs) then rep ++ replaceChars pat rep fuel ((c :: cs).drop pat.length)
    else c :: replaceChars pat rep fuel cs

/-- Python `s.replace(pat, rep)` for a nonempty pattern (every use site
passes a nonempty literal pattern). -/
def strReplace (s pat rep : String) : String :=
  if pat.data.isEmpty then s
  else String.mk (replaceChars pat.data rep.data s.data.length s.data)

/-- Splitting worker: `acc` holds the current piece reversed. -/
def splitOnAux (sep : List Char) : Nat → List Char → List Char → List (List Char)
  | _, acc, [] => [acc.reverse]
  | 0, acc, cs => [acc.reverse ++ cs]
  | fuel + 1, acc, c :: cs =>
    if sep.isPrefixOf (c :: cs) then
      acc.reverse :: splitOnAux sep fuel [] ((c :: cs).drop sep.length)
    else splitOnAux sep fuel (c :: acc) cs

/-- Python `s.split(sep)` for a nonempty separator. -/
def strSplitOn (s sep : String) : List String :=
  if sep.data.isEmpty then [s]
  else (splitOnAux sep.data s.data.length [] s.data).map String.mk

/-- Python `s.strip()` on ASCII whitespace (the unicode whitespace
stripped by `float(str)` beyond these characters is unexercised). -/
def trimChars (cs : List Char) : List Char :=
  ((cs.dropWhile Char.isWhitespace).reverse.dropWhile Char.isWhitespace).reverse

/-- A parsed JSON document / Python object tree.  `jnull` doubles as the
Python value `None`. -/
inductive JVal where
  | jnull : JVal
  | jbool (b : Bool) : JVal
  | jnum (q : ℚ) : JVal
  | jstr (s : String) : JVal
  | jarr (xs : List JVal) : JVal
  | jobj (kvs : List (String × JVal)) : JVal

namespace JVal

mutual

/-- Structural equality test on JSON trees. -/
def beq : JVal → JVal → Bool
  | .jnull, .jnull => true
  | .jbool a, .jbool b => decide (a = b)
  | .jnum a, .jnum b => decide (a = b)
  | .jstr a, .jstr b => decide (a = b)
  | .jarr xs, .jarr ys => beqL xs ys
  | .jobj a, .jobj b => beqO a b
  | _, _ => false

/-- Equality test on JSON array contents. -/
def beqL : List JVal → List JVal → Bool
  | [], [] => true
  | x :: xs, y :: ys => beq x y && beqL xs ys
  | _, _ => false

/-- Equality test on JSON object contents. -/
def beqO : List (String × JVal) → List (String × JVal) → Bool
  | [], [] => true
  | (k, v) :: xs, (k', v') :: ys => decide (k = k') && beq v v' && beqO xs ys
  | _, _ => false

end

mutual

theorem beq_iff : ∀ a b : JVal, beq a b = true ↔ a = b
  | .jnull, .jnull => by simp [beq]
  | .jnull, .jbool _ => by simp [beq]
  | .jnull, .jnum _ => by simp [beq]
  | .jnull, .jstr _ => by simp [beq]
  | .jnull, .jarr _ => by simp [beq]
  | .jnull, .jobj _ => by simp [beq]
  | .jbool _, .jnull => by simp [beq]
  | .jbool a, .jbool b => by simp [beq]
  | .jbool _, .jnum _ => by simp [beq]
  | .jbool _, .jstr _ => by simp [beq]
  | .jbool _, .jarr _ => by simp [beq]
  | .jbool _, .jobj _ => by simp [beq]
  | .jnum _, .jnull => by simp [beq]
  | .jnum _, .jbool _ => by simp [beq]
  | .jnum a, .jnum b => by simp [beq]
  | .jnum _, .jstr _ => by simp [beq]
  | .jnum _, .jarr _ => by simp [beq]
  | .jnum _, .jobj _ => by simp [beq]
  | .jstr _, .jnull => by simp [beq]
  | .jstr _, .jbool _ => by simp [beq]
  | .jstr _, .jnum _ => by simp [beq]
  | .jstr a, .jstr b => by simp [beq]
  | .jstr _, .jarr _ => by simp [beq]
  | .jstr _, .jobj _ => by simp [beq]
  | .jarr _, .jnull => by simp [beq]
  | .jarr _, .jbool _ => by simp [beq]
  | .jarr _, .jnum _ => by simp [beq]
  | .jarr _, .jstr _ => by simp [beq]
  | .jarr xs, .jarr ys => by
      have h := beqL_iff xs ys
      simp [beq, h]
  | .jarr _, .jobj _ => by simp [beq]
  | .jobj _, .jnull => by simp [beq]
  | .jobj _, .jbool _ => by simp [beq]
  | .jobj _, .jnum _ => by simp [beq]
  | .jobj _, .jstr _ => by simp [beq]
  | .jobj _, .jarr _ => by simp [beq]
  | .jobj a, .jobj b => by
      have h := beqO_iff a b
      simp [beq, h]

theorem beqL_iff : ∀ xs ys : List JVal, beqL xs ys = true ↔ xs = ys
  | [], [] => by simp [beqL]
  | [], _ :: _ => by simp [beqL]
  | _ :: _, [] => by simp [beqL]
  | x :: xs, y :: ys => by
      have h1 := beq_iff x y
      have h2 := beqL_iff xs ys
      simp [beqL, h1, h2, Bool.and_eq_true]

theorem beqO_iff : ∀ xs ys : List (String × JVal), beqO xs ys = true ↔ xs = ys
  | [], [] => by simp [beqO]
  | [], _ :: _ => by simp [beqO]
  | _ :: _, [] => by simp [beqO]
  | (k, v) :: xs, (k', v') :: ys => by
      have h1 := beq_iff v v'
      have h2 := beqO_iff xs ys
      simp [beqO, h1, h2, Bool.and_eq_true, Prod.ext_iff, and_assoc]

end

instance : DecidableEq JVal := fun a b => decidable_of_iff _ (beq_iff a b)

/-- Python truthiness (`bool(v)`) of a JSON-sourced value. -/
def truthy : JVal → Bool
  | jnull => false
  | jbool b => b
  | jnum q => decide (q ≠ 0)
  | jstr s => decide (s ≠ "")
  | jarr xs => !xs.isEmpty
  | jobj kvs => !kvs.isEmpty

/-- Last-occurrence lookup in a JSON object: `json.loads` keeps the last
binding of a duplicated key, so the Python dict built from `kvs` maps `k`
to the last value paired with `k`. -/
def lookupLast : List (String × JVal) → String → Option JVal
  | [], _ => none
  | (k', v) :: rest, k =>
      match lookupLast rest k with
      | some w => some w
      | none => if k' = k then some v else none

/-- `k in d` for a Python dict. -/
def hasKeyO (kvs : List (String × JVal)) (k : String) : Bool :=
  kvs.any (fun p => decide (p.1 = k))

/-- `d.get(k, default)`; raises (`none`) when the receiver is not a dict. -/
def dgetD (v : JVal) (k : String) (dflt : JVal) : Option JVal :=
  match v with
  | jobj kvs => some ((lookupLast kvs k).getD dflt)
  | _ => none

/-- `d.get(k)` on a value already known to be a dict (defaults to `None`);
returns `jnull` when the receiver is not a dict, so callers must establish
dict-ness first (which every call site below does). -/
def dget (v : JVal) (k : String) : JVal :=
  match v with
  | jobj kvs => (lookupLast kvs k).getD jnull
  | _ => jnull

/-- `k in v` membership test: dict key lookup, substring test for `str`,
element test for `list`; anything else raises `TypeError` (`none`). -/
def pyContains (k : String) (v : JVal) : Option Bool :=
  match v with
  | jobj kvs => some (hasKeyO kvs k)
  | jstr s => some (decide ((strSplitOn s k).length ≥ 2))
  | jarr xs => some (xs.contains (jstr k))
  | _ => none

/-- `v[k]` string indexing: only dicts support it; a missing key raises
`KeyError`. -/
def idxStr (v : JVal) (k : String) : Option JVal :=
  match v with
  | jobj kvs => lookupLast kvs k
  | _ => none

/-- `for x in v`: lists iterate their elements, dicts their keys and
strings their characters (as one-character strings); scalars raise
`TypeError` (`none`). -/
def pyIter : JVal → Option (List JVal)
  | jarr xs => some xs
  | jobj kvs => some (kvs.map (fun p => jstr p.1))
  | jstr s => some (s.data.map (fun c => jstr (String.mk [c])))
  | _ => none

end JVal

/-! ## Decimal strings and Python `float(str)` -/

/-- Little-endian decimal digits of `n` as characters (fuelled structural
recursion; `fuel ≥ n` suffices). -/
def natDigitsAux : Nat → Nat → List Char
  | 0, _ => []
  | _, 0 => []
  | fuel + 1, n => Char.ofNat (48 + n % 10) :: natDigitsAux fuel (n / 10)

/-- Big-endian decimal digit characters of `n` (empty for `n = 0`). -/
def natChars (n : Nat) : List Char :=
  (natDigitsAux n n).reverse

/-- Zero-padded fixed-width decimal rendering, as produced by Python's
`%02d`/`%04d`/`%06d` format codes. -/
def pad (k n : Nat) : List Char :=
  List.replicate (k - (natChars n).length) '0' ++ natChars n

/-- Decimal repr of a natural number. -/
def natRepr (n : Nat) : String :=
  if n = 0 then "0" else String.mk (natChars n)

/-- Reads a nonempty all-digit character list as a natural number (the
digit parsing performed by C `datetime.fromisoformat` on its slices). -/
def readNat (cs : List Char) : Option Nat :=
  if cs ≠ [] ∧ cs.all Char.isDigit then
    some (cs.foldl (fun a c => 10 * a + (c.toNat - 48)) 0)
  else none

/-- Python `float(str)`.  Grammar: optional surrounding whitespace, an
optional sign, a mantissa (`digits`, `digits.digits?`, `.digits`) and an
optional exponent.  The `inf`/`nan` words (non-finite, not representable
in the rational model) and the underscore digit-group syntax are treated
as failures; no claim depends on those inputs. -/
def parseFloat (s : String) : Option ℚ :=
  let cs := trimChars s.data
  let (sgn, cs) : Int × List Char :=
    match cs with
    | '+' :: r => (1, r)
    | '-' :: r => (-1, r)
    | r => (1, r)
  let mant := cs.takeWhile (fun c => c != 'e' && c != 'E')
  let expPart := cs.drop mant.length
  let intDs := mant.takeWhile Char.isDigit
  let rest := mant.drop intDs.length
  let fracDs? : Option (List Char) :=
    match rest with
    | [] => some []
    | '.' :: fr => if fr.all Char.isDigit then some fr else none
    | _ => none
  match fracDs? with
  | none => none
  | some fracDs =>
    if intDs.isEmpty && fracDs.isEmpty then none
    else
      let e? : Option Int :=
        match expPart with
        | [] => some 0
        | _ :: ecs =>
          let (esgn, eds) : Int × List Char :=
            match ecs with
            | '+' :: r => (1, r)
            | '-' :: r => (-1, r)
            | r => (1, r)
          if !eds.isEmpty && eds.all Char.isDigit then
            some (esgn * (eds.foldl (fun a c => 10 * a + (c.toNat - 48)) 0 : Nat))
          else none
      match e? with
      | none => none
      | some e =>
        let num0 : Nat := (intDs ++ fracDs).foldl (fun a c => 10 * a + (c.toNat - 48)) 0
        let den0 : Nat := 10 ^ fracDs.length
        if 0 ≤ e then some (mkRat (sgn * num0 * (10 ^ e.toNat : Nat)) den0)
        else some (mkRat (sgn * num0) (den0 * 10 ^ (-e).toNat))

/-- Python `float(x)` on an arbitrary object: floats pass through, bools
coerce to 0/1, strings are parsed, anything else raises `TypeError`. -/
def pyFloat : JVal → Option ℚ
  | .jnum q => some q
  | .jbool b => some (if b then 1 else 0)
  | .jstr s => parseFloat s
  | _ => none

/-- Decimal repr of a rational, used only for `str()` of numeric values.
Faithfulness note: Python renders floats in shortest-roundtrip decimal
form; this model renders `n.0` for integers and `num/den` otherwise.  The
only behaviour downstream code depends on is that a numeric repr never
parses as an ISO-8601 timestamp, which holds for both renderings (a
hyphen can only appear leading, never at the date positions). -/
def ratRepr (q : ℚ) : String :=
  (if q.num < 0 then "-" else "") ++
    (if q.den = 1 then natRepr q.num.natAbs ++ ".0"
     else natRepr q.num.natAbs ++ "/" ++ natRepr q.den)

/-- Python `str(x)` for the values that can populate a record field.
Containers render with their bracket; as for `ratRepr`, the only
downstream-relevant property of the non-string cases is that they fail
ISO-8601 parsing, which any Python container/number repr also does. -/
def pyStr : JVal → String
  | .jstr s => s
  | .jnull => "None"
  | .jbool b => if b then "True" else "False"
  | .jnum q => ratRepr q
  | .jarr _ => "[...]"
  | .jobj _ => "{...}"

/-! ## The `datetime` model

Civil datetimes with an optional UTC offset, as produced by
`datetime.fromisoformat` and consumed by `astimezone`/`isoformat`.
Only the behaviour reachable from the timeline converter is modelled:
ISO-8601 parsing (pre-3.11 grammar — the code substitutes `'Z'` itself),
validation ranges of the `datetime` constructor, `astimezone(pytz.UTC)`
(a civil shift by the offset, which `fromisoformat` bounds strictly below
24 hours), and `isoformat` rendering. -/

structure DT where
  year : Nat
  month : Nat
  day : Nat
  hour : Nat
  minute : Nat
  second : Nat
  usec : Nat
  tzsec : Option Int
  deriving DecidableEq

/-- Gregorian leap year. -/
def isLeap (y : Nat) : Bool :=
  (y % 4 = 0 && y % 100 ≠ 0) || y % 400 = 0

/-- Days in a month. -/
def daysInMonth (y m : Nat) : Nat :=
  if m = 2 then (if isLeap y then 29 else 28)
  else if m = 4 ∨ m = 6 ∨ m = 9 ∨ m = 11 then 30
  else 31

/-- The `datetime` constructor: validates all field ranges
(`MINYEAR = 1`, `MAXYEAR = 9999`) and otherwise raises (`none`). -/
def mkDT (y m d h mi s us : Nat) (tz : Option Int) : Option DT :=
  if 1 ≤ y ∧ y ≤ 9999 ∧ 1 ≤ m ∧ m ≤ 12 ∧ 1 ≤ d ∧ d ≤ daysInMonth y m ∧
     h ≤ 23 ∧ mi ≤ 59 ∧ s ≤ 59 ∧ us ≤ 999999 then
    some ⟨y, m, d, h, mi, s, us, tz⟩
  else none

/-- `YYYY-MM-DD`: four digits, hyphen, two digits, hyphen, two digits
and nothing else (the digit-group/separator structure is matched
positionally, accepting exactly the ten-character strict form). -/
def parseDate (cs : List Char) : Option (Nat × Nat × Nat) :=
  match readNat (cs.take 4), cs.drop 4 with
  | some y, '-' :: r1 =>
    match readNat (r1.take 2), r1.drop 2 with
    | some m, '-' :: r2 =>
      if r2.length = 2 then (readNat r2).map (fun d => (y, m, d)) else none
    | _, _ => none
  | _, _ => none

/-- `HH[:MM[:SS[.fff | .ffffff]]]`, the time / UTC-offset component
grammar of `fromisoformat` (lengths 2, 5, 8, 12 or 15). -/
def parseHMSF (cs : List Char) : Option (Nat × Nat × Nat × Nat) :=
  if cs.length = 2 then (readNat cs).map (fun h => (h, 0, 0, 0))
  else
    match readNat (cs.take 2), cs.drop 2 with
    | some h, ':' :: r1 =>
      if r1.length = 2 then (readNat r1).map (fun m => (h, m, 0, 0))
      else
        match readNat (r1.take 2), r1.drop 2 with
        | some m, ':' :: r2 =>
          if r2.length = 2 then (readNat r2).map (fun s => (h, m, s, 0))
          else
            match readNat (r2.take 2), r2.drop 2 with
            | some s, '.' :: fr =>
              if fr.length = 3 then (readNat fr).map (fun f => (h, m, s, f * 1000))
              else if fr.length = 6 then (readNat fr).map (fun f => (h, m, s, f))
              else none
            | _, _ => none
        | _, _ => none
    | _, _ => none

/-- Splits a time string at its UTC-offset marker: the first `'-'` if
any, else the first `'+'` (CPython's `tstr.find('-') + 1 or
tstr.find('+') + 1`). -/
def findIdxC (c : Char) : List Char → Option Nat
  | [] => none
  | x :: xs => if x = c then some 0 else (findIdxC c xs).map (· + 1)

def splitTz (cs : List Char) : List Char × Option (Bool × List Char) :=
  match findIdxC '-' cs with
  | some i => (cs.take i, some (true, cs.drop (i + 1)))
  | none =>
    match findIdxC '+' cs with
    | some i => (cs.take i, some (false, cs.drop (i + 1)))
    | none => (cs, none)

/-- `datetime.fromisoformat` (the grammar documented for Python ≤ 3.10:
`YYYY-MM-DD[*HH[:MM[:SS[.fff[fff]]]][±HH:MM[:SS]]]`, any single character
as date/time separator).  Sub-second UTC offsets are outside the model
and rejected. -/
def fromisoformat (s : String) : Option DT :=
  let cs := s.data
  match parseDate (cs.take 10) with
  | none => none
  | some (y, m, d) =>
    match cs.drop 10 with
    | [] => mkDT y m d 0 0 0 0 none
    | _sep :: tcs =>
      let (timecs, tzpart) := splitTz tcs
      match parseHMSF timecs with
      | none => none
      | some (h, mi, sec, us) =>
        match tzpart with
        | none => mkDT y m d h mi sec us none
        | some (neg, tzcs) =>
          if tzcs.length = 5 ∨ tzcs.length = 8 then
            match parseHMSF tzcs with
            | some (th, tm, ts, _tus) =>
              let off : Int := (if neg then -1 else 1) * (3600 * (th : Int) + 60 * tm + ts)
              if -86400 < off ∧ off < 86400 then mkDT y m d h mi sec us (some off)
              else none
            | none => none
          else none

/-- Next civil day. -/
def nextDay (y m d : Nat) : Nat × Nat × Nat :=
  if d < daysInMonth y m then (y, m, d + 1)
  else if m < 12 then (y, m + 1, 1)
  else (y + 1, 1, 1)

/-- Previous civil day. -/
def prevDay (y m d : Nat) : Nat × Nat × Nat :=
  if 1 < d then (y, m, d - 1)
  else if 1 < m then (y, m - 1, daysInMonth y (m - 1))
  else (y - 1, 12, 31)

/-- `datetime ± timedelta` for `|delta| < 86400` seconds — the only
shifts reachable from `astimezone`, because `fromisoformat` bounds UTC
offsets strictly below 24 hours.  The day over/underflow steps one civil
day exactly as the instant arithmetic of `datetime` does on this range;
leaving the year range 1–9999 models `OverflowError` (`none`). -/
def addSecondsSmall (dt : DT) (delta : Int) : Option DT :=
  let t : Int := 3600 * (dt.hour : Int) + 60 * dt.minute + dt.second + delta
  if t < 0 then
    let t' := (t + 86400).toNat
    let ymd := prevDay dt.year dt.month dt.day
    if ymd.1 < 1 then none
    else some { dt with year := ymd.1, month := ymd.2.1, day := ymd.2.2,
                        hour := t' / 3600, minute := t' % 3600 / 60, second := t' % 60 }
  else if t < 86400 then
    let t' := t.toNat
    some { dt with hour := t' / 3600, minute := t' % 3600 / 60, second := t' % 60 }
  else
    let t' := (t - 86400).toNat
    let ymd := nextDay dt.year dt.month dt.day
    if ymd.1 > 9999 then none
    else some { dt with year := ymd.1, month := ymd.2.1, day := ymd.2.2,
                        hour := t' / 3600, minute := t' % 3600 / 60, second := t' % 60 }

/-- `dt.astimezone(pytz.UTC)` on an aware datetime: shift the civil time
by the negated offset and stamp UTC.  The naive case (which Python would
interpret in the system-local timezone) is unreachable here — the caller
localizes first — and is modelled as a failure. -/
def astimezoneUTC (dt : DT) : Option DT :=
  match dt.tzsec with
  | none => none
  | some off => (addSecondsSmall dt (-off)).map (fun d => { d with tzsec := some 0 })

/-- `isoformat()` rendering: `YYYY-MM-DDTHH:MM:SS[.ffffff][±HH:MM[:SS]]`
(microseconds printed only when nonzero). -/
def DT.isoformat (dt : DT) : String :=
  let tzChars : List Char :=
    match dt.tzsec with
    | none => []
    | some off =>
      let a := off.natAbs
      (if off < 0 then '-' else '+') ::
        (pad 2 (a / 3600) ++ ':' :: (pad 2 (a % 3600 / 60) ++
        (if a % 60 ≠ 0 then ':' :: pad 2 (a % 60) else [])))
  String.mk
    (pad 4 dt.year ++ '-' :: (pad 2 dt.month ++ '-' :: (pad 2 dt.day ++
     'T' :: (pad 2 dt.hour ++ ':' :: (pad 2 dt.minute ++ ':' :: (pad 2 dt.second ++
     ((if dt.usec ≠ 0 then '.' :: pad 6 dt.usec else []) ++ tzChars)))))))

/-! ## Converter (`TimelineDataConverter`) -/

/-- `INPUT_TIMEZONE = "Asia/Tokyo"`, modelled as its fixed modern offset
+09:00 (pytz's pre-1952 historical transitions are unreachable for
timeline data and unmodelled). -/
def INPUT_TIMEZONE_OFFSET : Int := 9 * 3600

/-- `TimelineDataConverter.convert_timestamp_to_utc`: ISO parse (with the
`'Z' → '+00:00'` substitution), Tokyo localization of naive values, then
conversion to UTC; any failure yields `None`. -/
def convert_timestamp_to_utc (s : String) : Option DT :=
  if s = "" then none
  else
    match fromisoformat (strReplace s "Z" "+00:00") with
    | none => none
    | some dt =>
      let dt' := if dt.tzsec = none then { dt with tzsec := some INPUT_TIMEZONE_OFFSET } else dt
      astimezoneUTC dt'

/-- `TimelineDataConverter.normalize_numeric_value`. -/
def normalize_numeric_value (v : JVal) : JVal :=
  if v = .jnull ∨ v = .jstr "" then .jnull
  else
    match pyFloat v with
    | some q => .jnum q
    | none => .jnull

/-- `TimelineDataConverter.extract_geo_coordinates`
(`"geo:<lat>,<lng>"`). -/
def extract_geo_coordinates (v : JVal) : Option ℚ × Option ℚ :=
  match v with
  | .jstr s =>
    if s = "" then (none, none)
    else
      match strSplitOn (strReplace s "geo:" "") "," with
      | p0 :: p1 :: _ =>
        match parseFloat p0, parseFloat p1 with
        | some a, some b => (some a, some b)
        | _, _ => (none, none)
      | _ => (none, none)
  | _ => (none, none)

/-- `TimelineDataConverter.parse_android_coordinates`
(`"<lat>°, <lng>°"`; the 2-tuple unpacking makes any part count other
than exactly two a failure). -/
def parse_android_coordinates (v : JVal) : Option ℚ × Option ℚ :=
  match v with
  | .jstr s =>
    if s = "" then (none, none)
    else
      match strSplitOn (strReplace s "°" "") ", " with
      | [p0, p1] =>
        match parseFloat p0, parseFloat p1 with
        | some a, some b => (some a, some b)
        | _, _ => (none, none)
      | _ => (none, none)
  | _ => (none, none)

/-! ## Records and normalization -/

/-- A canonical record: the Python dict built by the segment processors,
modelled as an association list in insertion order (Python dicts cannot
hold duplicate keys; the accessors below agree with dict semantics on
duplicate-free lists). -/
abbrev Rec := List (String × JVal)

/-- `k in record`. -/
def Rec.hasKey (r : Rec) (k : String) : Bool := JVal.hasKeyO r k

/-- `record.get(k)` / `record[k]` (default `None`). -/
def Rec.get (r : Rec) (k : String) : JVal := (JVal.lookupLast r k).getD .jnull

/-- `record[k] = v` for an already-present key. -/
def Rec.set (r : Rec) (k : String) (v : JVal) : Rec :=
  r.map (fun p => if p.1 = k then (k, v) else p)

/-- Key sequence of a record. -/
def Rec.keys (r : Rec) : List String := r.map Prod.fst

/-- The value written into a time column by `normalize_record`:
`convert_timestamp_to_utc(str(v))`, rendered with `isoformat()` on
success and `None` on failure. -/
def timeTransform (v : JVal) : JVal :=
  match convert_timestamp_to_utc (pyStr v) with
  | some dt => .jstr dt.isoformat
  | none => .jnull

/-- One iteration of the time-column loop of `normalize_record`
(`if col in normalized and normalized[col]:`). -/
def normTimeCol (col : String) (r : Rec) : Rec :=
  if r.hasKey col && (r.get col).truthy then r.set col (timeTransform (r.get col)) else r

/-- One iteration of the numeric-column loop of `normalize_record`. -/
def normNumCol (col : String) (r : Rec) : Rec :=
  if r.hasKey col then r.set col (normalize_numeric_value (r.get col)) else r

def TIME_COLUMNS : List String := ["start_time", "end_time", "point_time"]

def NUMERIC_COLUMNS : List String :=
  ["latitude", "longitude", "activity_distanceMeters",
   "visit_probability", "activity_probability",
   "_gpx_elevation", "_gpx_speed", "_gpx_point_sequence"]

/-- `TimelineDataConverter.normalize_record`: returns a copy of the
record (`record.copy()` — the argument itself is never mutated, which in
this pure model is a given) with the three time columns and the eight
numeric columns rewritten in source order. -/
def normalize_record (r : Rec) : Rec :=
  NUMERIC_COLUMNS.foldl (fun acc col => normNumCol col acc)
    (TIME_COLUMNS.foldl (fun acc col => normTimeCol col acc) r)

/-! ## Validator (`TimelineDataValidator`)

`VALIDATION_CONFIG` from `config.py`, and the validation checks.  The
mutable `self.errors` / `self.warnings` lists are modelled in writer
style: each function returns the messages it appends, tagged by an
inductive type carrying the interpolated payloads (the exact Japanese
message text plays no role in the code's behaviour). -/

def MIN_LATITUDE : ℚ := -90
def MAX_LATITUDE : ℚ := 90
def MIN_LONGITUDE : ℚ := -180
def MAX_LONGITUDE : ℚ := 180
def MAX_DISTANCE_METERS : ℚ := 1000000
def MIN_PROBABILITY : ℚ := 0
def MAX_PROBABILITY : ℚ := 1

/-- The validator's messages; `_add_error` sites and `_add_warning` sites
are distinguished by `Msg.isError`. -/
inductive Msg where
  | formatDetectError : Msg
  | structValidationError : Msg
  | androidNotDict : Msg
  | requiredFieldMissing (field : String) : Msg
  | segmentsNotList : Msg
  | segmentsEmpty : Msg
  | iphoneNotList : Msg
  | dataEmpty : Msg
  | itemNotDict : Msg
  | latOutOfRange (lat : ℚ) : Msg
  | lngOutOfRange (lng : ℚ) : Msg
  | coordConvError (lat lng : JVal) : Msg
  | probOutOfRange (p : ℚ) : Msg
  | probConvError (p : JVal) : Msg
  | distNegative (d : ℚ) : Msg
  | distTooLarge (d : ℚ) : Msg
  | distConvError (d : JVal) : Msg
  | timestampParseError (t : JVal) : Msg
  deriving DecidableEq

/-- Messages appended through `_add_error` (as opposed to
`_add_warning`). -/
def Msg.isError : Msg → Bool
  | .formatDetectError => true
  | .structValidationError => true
  | .androidNotDict => true
  | .requiredFieldMissing _ => true
  | .segmentsNotList => true
  | .iphoneNotList => true
  | .itemNotDict => true
  | _ => false

/-- The `errors` list of `get_validation_summary`. -/
def summaryErrors (ms : List Msg) : List Msg := ms.filter Msg.isError

/-- The `warnings` list of `get_validation_summary`. -/
def summaryWarnings (ms : List Msg) : List Msg := ms.filter (fun m => !m.isError)

/-- `TimelineDataValidator.validate_coordinates`.  `float(lat)` and
`float(lng)` are evaluated before either name is rebound, so the
conversion-failure warning carries the original values. -/
def validate_coordinates (lat lng : JVal) : Bool × List Msg :=
  if lat = .jnull ∨ lng = .jnull then (true, [])
  else
    match pyFloat lat, pyFloat lng with
    | some la, some ln =>
      if ¬(MIN_LATITUDE ≤ la ∧ la ≤ MAX_LATITUDE) then (false, [.latOutOfRange la])
      else if ¬(MIN_LONGITUDE ≤ ln ∧ ln ≤ MAX_LONGITUDE) then (false, [.lngOutOfRange ln])
      else (true, [])
    | _, _ => (false, [.coordConvError lat lng])

/-- `TimelineDataValidator.validate_probability`. -/
def validate_probability (p : JVal) : Bool × List Msg :=
  if p = .jnull then (true, [])
  else
    match pyFloat p with
    | some q =>
      if ¬(MIN_PROBABILITY ≤ q ∧ q ≤ MAX_PROBABILITY) then (false, [.probOutOfRange q])
      else (true, [])
    | none => (false, [.probConvError p])

/-- `TimelineDataValidator.validate_distance`. -/
def validate_distance (v : JVal) : Bool × List Msg :=
  if v = .jnull then (true, [])
  else
    match pyFloat v with
    | some q =>
      if q < 0 then (false, [.distNegative q])
      else if MAX_DISTANCE_METERS < q then (false, [.distTooLarge q])
      else (true, [])
    | none => (false, [.distConvError v])

/-- `TimelineDataValidator.validate_timestamp`: falsy values pass; a
string must re-parse under `fromisoformat` (after the `'Z'`
substitution); the `.replace` attribute error on truthy non-strings is
caught by the same handler and produces the same warning. -/
def validate_timestamp (t : JVal) : Bool × List Msg :=
  if !t.truthy then (true, [])
  else
    match t with
    | .jstr s =>
      if (fromisoformat (strReplace s "Z" "+00:00")).isSome then (true, [])
      else (false, [.timestampParseError t])
    | _ => (false, [.timestampParseError t])

/-- `TimelineDataValidator.validate_record`: runs every check, and-ing
the verdicts and concatenating the appended messages in source order. -/
def validate_record (r : Rec) : Bool × List Msg :=
  let lat := r.get "latitude"
  let lng := r.get "longitude"
  let c1 := if lat ≠ .jnull ∨ lng ≠ .jnull then validate_coordinates lat lng else (true, [])
  let c2 := if r.hasKey "visit_probability" then validate_probability (r.get "visit_probability") else (true, [])
  let c3 := if r.hasKey "activity_probability" then validate_probability (r.get "activity_probability") else (true, [])
  let c4 := if r.hasKey "activity_distanceMeters" then validate_distance (r.get "activity_distanceMeters") else (true, [])
  let c5 := if r.hasKey "start_time" && (r.get "start_time").truthy then validate_timestamp (r.get "start_time") else (true, [])
  let c6 := if r.hasKey "end_time" && (r.get "end_time").truthy then validate_timestamp (r.get "end_time") else (true, [])
  let c7 := if r.hasKey "point_time" && (r.get "point_time").truthy then validate_timestamp (r.get "point_time") else (true, [])
  (c1.1 && c2.1 && c3.1 && c4.1 && c5.1 && c6.1 && c7.1,
   c1.2 ++ c2.2 ++ c3.2 ++ c4.2 ++ c5.2 ++ c6.2 ++ c7.2)

/-- The two supported dialects. -/
inductive Fmt where
  | android
  | iphone
  deriving DecidableEq

/-- `TimelineDataValidator.detect_format`: the iPhone test requires a
nonempty list whose first (up to) three items are all dicts and whose
first item carries `startTime`; otherwise a dict carrying
`semanticSegments` is Android; everything else appends an error and
re-raises (`none`). -/
def detect_format (d : JVal) : Option Fmt × List Msg :=
  let iphoneHit : Bool :=
    match d with
    | .jarr xs =>
      !xs.isEmpty &&
      (xs.take 3).all (fun x => match x with | .jobj _ => true | _ => false) &&
      (match xs with
       | .jobj kvs :: _ => JVal.hasKeyO kvs "startTime"
       | _ => false)
    | _ => false
  if iphoneHit then (some .iphone, [])
  else
    match d with
    | .jobj kvs =>
      if JVal.hasKeyO kvs "semanticSegments" then (some .android, [])
      else (none, [.formatDetectError])
    | _ => (none, [.formatDetectError])

/-- `TimelineDataValidator.validate_json_structure` (with
`_validate_android_structure` / `_validate_iphone_structure` inlined):
never raises; returns the verdict and the appended messages. -/
def validate_json_structure (d : JVal) (f : Fmt) : Bool × List Msg :=
  match f with
  | .android =>
    match d with
    | .jobj kvs =>
      if JVal.hasKeyO kvs "semanticSegments" then
        match (JVal.lookupLast kvs "semanticSegments").getD (.jarr []) with
        | .jarr segs => if segs.isEmpty then (true, [.segmentsEmpty]) else (true, [])
        | _ => (false, [.segmentsNotList])
      else (false, [.requiredFieldMissing "semanticSegments"])
    | _ => (false, [.androidNotDict])
  | .iphone =>
    match d with
    | .jarr [] => (true, [.dataEmpty])
    | .jarr (x :: _) =>
      match x with
      | .jobj kvs =>
        if JVal.hasKeyO kvs "startTime" then (true, [])
        else (false, [.requiredFieldMissing "startTime"])
      | _ => (false, [.itemNotDict])
    | _ => (false, [.iphoneNotList])

/-! ## Segment processors (`TimelineJSONParser`)

Each processor models one Python method: the first component is `none`
when an exception escapes the method (attribute/type/key errors on
malformed nested structure), otherwise the records it appended; the
second component is the messages the shared validator accumulated —
these survive an escaping exception, exactly as the mutable validator
state does. -/

/-- Builds the 18-key record dict shared by every branch, in the literal
insertion order of the source. -/
def baseRec (ty : String) (st et pt : JVal) (lat lng : Option ℚ)
    (vp vpid vst adm aty ap : JVal) (u : String) : Rec :=
  [("type", .jstr ty), ("start_time", st), ("end_time", et), ("point_time", pt),
   ("latitude", match lat with | some a => .jnum a | none => .jnull),
   ("longitude", match lng with | some b => .jnum b | none => .jnull),
   ("visit_probability", vp), ("visit_placeId", vpid), ("visit_semanticType", vst),
   ("activity_distanceMeters", adm), ("activity_type", aty), ("activity_probability", ap),
   ("username", .jstr u),
   ("_gpx_data_source", .jnull), ("_gpx_track_name", .jnull), ("_gpx_elevation", .jnull),
   ("_gpx_speed", .jnull), ("_gpx_point_sequence", .jnull)]

/-- "normalize, validate, append when valid" — the tail every branch
ends with. -/
def finishRecord (r : Rec) : List Rec × List Msg :=
  let nr := normalize_record r
  let v := validate_record nr
  (if v.1 then [nr] else [], v.2)

/-- The `for path in segment['timelinePath']` loop.  Iterating a dict or
string yields strings, whose `.get` then raises, which the non-dict arm
models; records and messages accumulated before the raise are kept. -/
def androidPathLoop (st et : JVal) (u : String) : List JVal → Option (List Rec) × List Msg
  | [] => (some [], [])
  | .jobj kvs :: rest =>
    let pt := (JVal.lookupLast kvs "time").getD .jnull
    let c := parse_android_coordinates ((JVal.lookupLast kvs "point").getD (.jstr ""))
    let f := finishRecord (baseRec "timelinePath" st et pt c.1 c.2
      .jnull .jnull .jnull .jnull .jnull .jnull u)
    match androidPathLoop st et u rest with
    | (orecs, ms2) => (orecs.map (f.1 ++ ·), f.2 ++ ms2)
  | _ :: _ => (none, [])

/-- The `'visit' in segment` branch of `process_android_segment`.
`visit.get` / `top_candidate.get` / `place_location.get` on a non-dict
raise before any record is appended. -/
def androidVisit (visit st et : JVal) (u : String) : Option (List Rec) × List Msg :=
  match visit with
  | .jobj vkvs =>
    match (JVal.lookupLast vkvs "topCandidate").getD (.jobj []) with
    | .jobj tkvs =>
      match (JVal.lookupLast tkvs "placeLocation").getD (.jobj []) with
      | .jobj plkvs =>
        let c := parse_android_coordinates ((JVal.lookupLast plkvs "latLng").getD (.jstr ""))
        let f := finishRecord (baseRec "visit" st et .jnull c.1 c.2
          ((JVal.lookupLast vkvs "probability").getD .jnull)
          ((JVal.lookupLast tkvs "placeId").getD .jnull)
          ((JVal.lookupLast tkvs "semanticType").getD .jnull)
          .jnull .jnull .jnull u)
        (some f.1, f.2)
      | _ => (none, [])
    | _ => (none, [])
  | _ => (none, [])

/-- One iteration of the `for key in ['start', 'end']` loop:
`if key in activity and 'latLng' in activity[key]`, then the record
build (whose `top_candidate.get` raises on a non-dict top candidate). -/
def androidActivityEndpoint (akvs : List (String × JVal)) (tc : JVal)
    (key : String) (st et : JVal) (u : String) : Option (List Rec) × List Msg :=
  if JVal.hasKeyO akvs key then
    match JVal.pyContains "latLng" ((JVal.lookupLast akvs key).getD .jnull) with
    | none => (none, [])
    | some false => (some [], [])
    | some true =>
      match JVal.idxStr ((JVal.lookupLast akvs key).getD .jnull) "latLng" with
      | none => (none, [])
      | some latlngv =>
        match tc with
        | .jobj tkvs =>
          let c := parse_android_coordinates latlngv
          let f := finishRecord (baseRec ("activity_" ++ key) st et .jnull c.1 c.2
            .jnull .jnull .jnull
            ((JVal.lookupLast akvs "distanceMeters").getD .jnull)
            ((JVal.lookupLast tkvs "type").getD .jnull)
            ((JVal.lookupLast tkvs "probability").getD .jnull) u)
          (some f.1, f.2)
        | _ => (none, [])
  else (some [], [])

/-- The `'activity' in segment` branch of `process_android_segment`. -/
def androidActivity (activity st et : JVal) (u : String) : Option (List Rec) × List Msg :=
  match activity with
  | .jobj akvs =>
    let tc := (JVal.lookupLast akvs "topCandidate").getD (.jobj [])
    match androidActivityEndpoint akvs tc "start" st et u with
    | (none, ms) => (none, ms)
    | (some r1, ms1) =>
      match androidActivityEndpoint akvs tc "end" st et u with
      | (o2, ms2) => (o2.map (r1 ++ ·), ms1 ++ ms2)
  | _ => (none, [])

/-- `TimelineJSONParser.process_android_segment`. -/
def process_android_segment (segment : JVal) (u : String) : Option (List Rec) × List Msg :=
  match segment with
  | .jobj skvs =>
    let st := (JVal.lookupLast skvs "startTime").getD .jnull
    let et := (JVal.lookupLast skvs "endTime").getD .jnull
    let tpart : Option (List Rec) × List Msg :=
      if JVal.hasKeyO skvs "timelinePath" then
        match JVal.pyIter ((JVal.lookupLast skvs "timelinePath").getD .jnull) with
        | some paths => androidPathLoop st et u paths
        | none => (none, [])
      else (some [], [])
    match tpart with
    | (none, ms) => (none, ms)
    | (some r1, ms1) =>
      let vpart :=
        if JVal.hasKeyO skvs "visit" then
          androidVisit ((JVal.lookupLast skvs "visit").getD .jnull) st et u
        else (some [], [])
      match vpart with
      | (none, ms2) => (none, ms1 ++ ms2)
      | (some r2, ms2) =>
        let apart :=
          if JVal.hasKeyO skvs "activity" then
            androidActivity ((JVal.lookupLast skvs "activity").getD .jnull) st et u
          else (some [], [])
        match apart with
        | (o3, ms3) => (o3.map (r1 ++ r2 ++ ·), ms1 ++ ms2 ++ ms3)
  | _ => (none, [])

/-- The `'visit' in segment` branch of `process_iphone_item` (note the
`placeID` key and the `geo:` coordinate encoding; the place location
defaults to `''` and a non-string parses as `(None, None)` without
raising). -/
def iphoneVisit (visit st et : JVal) (u : String) : Option (List Rec) × List Msg :=
  match visit with
  | .jobj vkvs =>
    match (JVal.lookupLast vkvs "topCandidate").getD (.jobj []) with
    | .jobj tkvs =>
      let c := extract_geo_coordinates ((JVal.lookupLast tkvs "placeLocation").getD (.jstr ""))
      let f := finishRecord (baseRec "visit" st et .jnull c.1 c.2
        ((JVal.lookupLast vkvs "probability").getD .jnull)
        ((JVal.lookupLast tkvs "placeID").getD .jnull)
        ((JVal.lookupLast tkvs "semanticType").getD .jnull)
        .jnull .jnull .jnull u)
      (some f.1, f.2)
    | _ => (none, [])
  | _ => (none, [])

/-- One activity endpoint of `process_iphone_item`: the endpoint record
is built only when `start_lat and start_lng` is truthy (both parsed,
both nonzero); only then can the non-dict top candidate raise. -/
def iphoneEndpoint (akvs : List (String × JVal)) (tc : JVal)
    (key : String) (tag : String) (st et : JVal) (u : String) :
    Option (List Rec) × List Msg :=
  let c := extract_geo_coordinates ((JVal.lookupLast akvs key).getD (.jstr ""))
  let cond : Bool :=
    match c with
    | (some a, some b) => decide (a ≠ 0) && decide (b ≠ 0)
    | _ => false
  if cond then
    match tc with
    | .jobj tkvs =>
      let f := finishRecord (baseRec tag st et .jnull c.1 c.2
        .jnull .jnull .jnull
        ((JVal.lookupLast akvs "distanceMeters").getD .jnull)
        ((JVal.lookupLast tkvs "type").getD .jnull)
        ((JVal.lookupLast tkvs "probability").getD .jnull) u)
      (some f.1, f.2)
    | _ => (none, [])
  else (some [], [])

/-- `TimelineJSONParser.process_iphone_item`. -/
def process_iphone_item (segment : JVal) (u : String) : Option (List Rec) × List Msg :=
  match segment with
  | .jobj skvs =>
    let st := (JVal.lookupLast skvs "startTime").getD .jnull
    let et := (JVal.lookupLast skvs "endTime").getD .jnull
    let vpart :=
      if JVal.hasKeyO skvs "visit" then
        iphoneVisit ((JVal.lookupLast skvs "visit").getD .jnull) st et u
      else (some [], [])
    match vpart with
    | (none, ms) => (none, ms)
    | (some r1, ms1) =>
      let apart : Option (List Rec) × List Msg :=
        if JVal.hasKeyO skvs "activity" then
          match (JVal.lookupLast skvs "activity").getD .jnull with
          | .jobj akvs =>
            let tc := (JVal.lookupLast akvs "topCandidate").getD (.jobj [])
            match iphoneEndpoint akvs tc "start" "activity_start" st et u with
            | (none, ms) => (none, ms)
            | (some r2, ms2) =>
              match iphoneEndpoint akvs tc "end" "activity_end" st et u with
              | (o3, ms3) => (o3.map (r2 ++ ·), ms2 ++ ms3)
          | _ => (none, [])
        else (some [], [])
      match apart with
      | (o, ms2) => (o.map (r1 ++ ·), ms1 ++ ms2)
  | _ => (none, [])

/-! ## Parser entry points -/

/-- Processes a list of vendor-native units in order, stopping at the
first escaping exception but keeping the messages accumulated so far
(both entry points drive their units through exactly this loop). -/
def processAll (f : JVal → String → Option (List Rec) × List Msg) (u : String) :
    List JVal → Option (List Rec) × List Msg
  | [] => (some [], [])
  | x :: xs =>
    match f x u with
    | (none, ms) => (none, ms)
    | (some rs, ms) =>
      match processAll f u xs with
      | (o, ms2) => (o.map (rs ++ ·), ms ++ ms2)

/-- The unit list iterated by the buffered path:
`data['semanticSegments']` (dict indexing — last duplicate wins) for
Android, the document itself for iPhone.  Both are only reached after
`validate_json_structure` has confirmed the container shape, so the
fallback arms are unreachable. -/
def bufferedItems (d : JVal) (f : Fmt) : List JVal :=
  match f, d with
  | .android, .jobj kvs =>
    match (JVal.lookupLast kvs "semanticSegments").getD (.jarr []) with
    | .jarr xs => xs
    | _ => []
  | .iphone, .jarr xs => xs
  | _, _ => []

/-- Dispatches to the per-dialect unit processor. -/
def unitProcessor (f : Fmt) : JVal → String → Option (List Rec) × List Msg :=
  match f with
  | .android => process_android_segment
  | .iphone => process_iphone_item

/-- `TimelineJSONParser.parse_json_data`, the buffered entry point: its
`try/except` converts every escaping exception — format detection
failure, the structure-validation `ValueError`, or a processing error —
into an empty record list, with the validator's accumulated messages
still observable through `get_parsing_summary`. -/
def parse_json_data (d : JVal) (u : String) : List Rec × List Msg :=
  match detect_format d with
  | (none, ms) => ([], ms)
  | (some fmt, ms0) =>
    match validate_json_structure d fmt with
    | (false, ms1) => ([], ms0 ++ ms1)
    | (true, ms1) =>
      match processAll (unitProcessor fmt) u (bufferedItems d fmt) with
      | (some recs, ms2) => (recs, ms0 ++ ms1 ++ ms2)
      | (none, ms2) => ([], ms0 ++ ms1 ++ ms2)

/-- The dialect chosen by `parse_json_stream` from the first structural
`ijson` event of the document: object start ⇒ android, array start ⇒
iphone; a scalar document produces neither event. -/
def sniffFormat : JVal → Option Fmt
  | .jobj _ => some .android
  | .jarr _ => some .iphone
  | _ => none

/-- The unit sequence produced by `ijson.items` on the re-wound stream.
`ijson` addresses events by the path components joined with `'.'`, with
no escaping of dots inside key names, so the query
`'semanticSegments.item'` matches three shapes of value: the elements of
an array value of a top-level `semanticSegments` key, the value of an
`"item"` member of an object value of such a key, and the whole value of
a top-level key literally named `"semanticSegments.item"` — each in
document order, with duplicate keys replayed (where the buffered dict
keeps only the last copy).  For iPhone the query `'item'` yields the
top-level array elements. -/
def streamItems (d : JVal) (f : Fmt) : List JVal :=
  match f, d with
  | .android, .jobj kvs =>
    kvs.flatMap (fun p =>
      if p.1 = "semanticSegments" then
        match p.2 with
        | .jarr xs => xs
        | .jobj inner => inner.flatMap (fun q => if q.1 = "item" then [q.2] else [])
        | _ => []
      else if p.1 = "semanticSegments.item" then [p.2]
      else [])
  | .iphone, .jarr xs => xs
  | _, _ => []

/-- `TimelineJSONParser.parse_json_stream` on a seekable source holding
the serialization of `d`: sniff the dialect from the first structural
token, rewind, lazily yield each unit's records.  An unrecognized first
token falls through to `pass` (no records, nothing raised); a processing
exception escapes to the consumer (`none`, with the records yielded
before the raise not modelled — no claim consumes them). -/
def parse_json_stream (d : JVal) (u : String) : Option (List Rec) × List Msg :=
  match sniffFormat d with
  | some f => processAll (unitProcessor f) u (streamItems d f)
  | none => (some [], [])

/-! ## Lemmas: decimal rendering round-trips -/

theorem digitChar_toNat : ∀ d : Nat, d < 10 → (Char.ofNat (48 + d)).toNat = 48 + d := by decide

theorem digitChar_isDigit : ∀ d : Nat, d < 10 → (Char.ofNat (48 + d)).isDigit = true := by decide

theorem natDigitsAux_digits :
    ∀ fuel n : Nat, ∀ c ∈ natDigitsAux fuel n, c.isDigit = true := by
  intro fuel
  induction fuel with
  | zero => intro n c hc; simp [natDigitsAux] at hc
  | succ f ih =>
    intro n c hc
    match n with
    | 0 => simp [natDigitsAux] at hc
    | m + 1 =>
      rw [show natDigitsAux (f + 1) (m + 1)
            = Char.ofNat (48 + (m + 1) % 10) :: natDigitsAux f ((m + 1) / 10) from rfl] at hc
      rcases List.mem_cons.mp hc with h | h
      · subst h; exact digitChar_isDigit _ (Nat.mod_lt _ (by omega))
      · exact ih _ c h

theorem natDigitsAux_val :
    ∀ fuel n : Nat, n ≤ fuel →
      (natDigitsAux fuel n).foldr (fun c a => 10 * a + (c.toNat - 48)) 0 = n := by
  intro fuel
  induction fuel with
  | zero => intro n hn; interval_cases n; simp [natDigitsAux]
  | succ f ih =>
    intro n hn
    match n with
    | 0 => simp [natDigitsAux]
    | m + 1 =>
      rw [show natDigitsAux (f + 1) (m + 1)
            = Char.ofNat (48 + (m + 1) % 10) :: natDigitsAux f ((m + 1) / 10) from rfl]
      rw [List.foldr_cons, ih ((m + 1) / 10) (by omega)]
      rw [digitChar_toNat _ (Nat.mod_lt _ (by omega))]
      omega

theorem natDigitsAux_length :
    ∀ fuel n k : Nat, n ≤ fuel → n < 10 ^ k → (natDigitsAux fuel n).length ≤ k := by
  intro fuel
  induction fuel with
  | zero => intro n k hn _; interval_cases n; simp [natDigitsAux]
  | succ f ih =>
    intro n k hn hk
    match n with
    | 0 => simp [natDigitsAux]
    | m + 1 =>
      have hkpos : k ≠ 0 := by
        rintro rfl
        norm_num at hk
      rw [show natDigitsAux (f + 1) (m + 1)
            = Char.ofNat (48 + (m + 1) % 10) :: natDigitsAux f ((m + 1) / 10) from rfl]
      have hdiv : (m + 1) / 10 < 10 ^ (k - 1) := by
        have h10 : (10:Nat) ^ k = 10 * 10 ^ (k - 1) := by
          conv_lhs => rw [show k = (k - 1) + 1 from by omega]
          rw [pow_succ]; ring
        rw [Nat.div_lt_iff_lt_mul (by norm_num)]
        omega
      have := ih ((m + 1) / 10) (k - 1) (by omega) hdiv
      simp only [List.length_cons]
      omega

theorem natChars_digits (n : Nat) : ∀ c ∈ natChars n, c.isDigit = true := by
  intro c hc
  rw [natChars, List.mem_reverse] at hc
  exact natDigitsAux_digits n n c hc

theorem natChars_length (n k : Nat) (h : n < 10 ^ k) : (natChars n).length ≤ k := by
  rw [natChars, List.length_reverse]
  exact natDigitsAux_length n n k le_rfl h

theorem natChars_val (n : Nat) :
    (natChars n).foldl (fun a c => 10 * a + (c.toNat - 48)) 0 = n := by
  rw [natChars, List.foldl_reverse]
  exact natDigitsAux_val n n le_rfl

theorem pad_length (k n : Nat) (h : n < 10 ^ k) : (pad k n).length = k := by
  have := natChars_length n k h
  simp [pad]
  omega

theorem pad_ne_nil (k n : Nat) (hk : 1 ≤ k) (h : n < 10 ^ k) : pad k n ≠ [] := by
  intro hnil
  have := pad_length k n h
  rw [hnil] at this
  simp at this
  omega

theorem readNat_pad (k n : Nat) (hk : 1 ≤ k) (h : n < 10 ^ k) :
    readNat (pad k n) = some n := by
  rw [readNat, if_pos]
  · congr 1
    rw [pad, List.foldl_append]
    have hzero : ∀ m : Nat, (List.replicate m '0').foldl (fun a c => 10 * a + (c.toNat - 48)) 0 = 0 := by
      intro m
      induction m with
      | zero => rfl
      | succ j ihj => simpa [List.replicate_succ] using ihj
    rw [hzero, natChars_val]
  · constructor
    · exact pad_ne_nil k n hk h
    · rw [List.all_eq_true]
      intro c hc
      rcases List.mem_append.mp hc with hrep | hdig
      · rw [List.eq_of_mem_replicate hrep]; decide
      · exact natChars_digits n c hdig

theorem take_len_append {α : Type} (xs ys : List α) : (xs ++ ys).take xs.length = xs :=
  List.take_left xs ys

theorem drop_len_append {α : Type} (xs ys : List α) : (xs ++ ys).drop xs.length = ys :=
  List.drop_left xs ys

/-! ## Lemmas: the datetime model -/

/-- The invariant guaranteed by the `datetime` constructor (`mkDT`). -/
def DT.Valid (dt : DT) : Prop :=
  1 ≤ dt.year ∧ dt.year ≤ 9999 ∧ 1 ≤ dt.month ∧ dt.month ≤ 12 ∧
  1 ≤ dt.day ∧ dt.day ≤ daysInMonth dt.year dt.month ∧
  dt.hour ≤ 23 ∧ dt.minute ≤ 59 ∧ dt.second ≤ 59 ∧ dt.usec ≤ 999999

instance (dt : DT) : Decidable dt.Valid := by unfold DT.Valid; infer_instance

theorem daysInMonth_le_31 (y m : Nat) : daysInMonth y m ≤ 31 := by
  unfold daysInMonth
  split <;> [split <;> omega; skip]
  split <;> omega

theorem one_le_daysInMonth (y m : Nat) : 1 ≤ daysInMonth y m := by
  unfold daysInMonth
  split <;> [split <;> omega; skip]
  split <;> omega

theorem mkDT_eq_some {y m d h mi s us : Nat} {tz : Option Int} {dt : DT}
    (hmk : mkDT y m d h mi s us tz = some dt) :
    dt = ⟨y, m, d, h, mi, s, us, tz⟩ ∧ dt.Valid := by
  rw [mkDT] at hmk
  split at hmk
  · cases hmk
    refine ⟨rfl, ?_⟩
    unfold DT.Valid
    simp_all
  · cases hmk

theorem mkDT_of_valid (dt : DT) (hv : dt.Valid) :
    mkDT dt.year dt.month dt.day dt.hour dt.minute dt.second dt.usec dt.tzsec = some dt := by
  obtain ⟨y, m, d, h, mi, s, us, tz⟩ := dt
  unfold DT.Valid at hv
  rw [mkDT, if_pos]
  exact hv

theorem chars_pad {k n : Nat} : ∀ c ∈ pad k n, c.isDigit = true := by
  intro c hc
  rcases List.mem_append.mp hc with hrep | hdig
  · rw [List.eq_of_mem_replicate hrep]; decide
  · exact natChars_digits n c hdig

theorem ne_of_isDigit {c c' : Char} (h : c.isDigit = true) (h' : c'.isDigit = false) :
    c ≠ c' := by
  rintro rfl
  rw [h] at h'
  cases h'

theorem findIdxC_none {t : Char} : ∀ cs : List Char, (∀ c ∈ cs, c ≠ t) → findIdxC t cs = none := by
  intro cs
  induction cs with
  | nil => intro _; rfl
  | cons x xs ih =>
    intro hmem
    rw [findIdxC, if_neg (hmem x (List.mem_cons_self x xs)), ih (fun c hc => hmem c (List.mem_cons_of_mem x hc))]
    rfl

theorem findIdxC_append_hit {t : Char} :
    ∀ (xs ys : List Char), (∀ c ∈ xs, c ≠ t) →
      findIdxC t (xs ++ t :: ys) = some xs.length := by
  intro xs ys
  induction xs with
  | nil => intro _; simp [findIdxC]
  | cons x xs ih =>
    intro hmem
    rw [List.cons_append, findIdxC, if_neg (hmem x (List.mem_cons_self x xs)),
      ih (fun c hc => hmem c (List.mem_cons_of_mem x hc))]
    rfl

theorem take_app_len {α : Type} : ∀ (xs ys : List α) (n : Nat),
    (xs ++ ys).take (xs.length + n) = xs ++ ys.take n := by
  intro xs ys n
  induction xs with
  | nil => simp
  | cons x xs ih => simp [List.cons_append, Nat.succ_add, ih]

theorem drop_app_len {α : Type} : ∀ (xs ys : List α) (n : Nat),
    (xs ++ ys).drop (xs.length + n) = ys.drop n := by
  intro xs ys n
  induction xs with
  | nil => simp
  | cons x xs ih => simp [List.cons_append, Nat.succ_add, ih]

theorem take_pad {k n : Nat} (h : n < 10 ^ k) (ys : List Char) (j : Nat) :
    (pad k n ++ ys).take (k + j) = pad k n ++ ys.take j := by
  have h2 := take_app_len (pad k n) ys j
  rwa [pad_length k n h] at h2

theorem drop_pad {k n : Nat} (h : n < 10 ^ k) (ys : List Char) (j : Nat) :
    (pad k n ++ ys).drop (k + j) = ys.drop j := by
  have h2 := drop_app_len (pad k n) ys j
  rwa [pad_length k n h] at h2

theorem take_pad_len {k n : Nat} (h : n < 10 ^ k) (ys : List Char) :
    (pad k n ++ ys).take k = pad k n := by
  have h2 := take_pad h ys 0
  simpa using h2

theorem drop_pad_len {k n : Nat} (h : n < 10 ^ k) (ys : List Char) :
    (pad k n ++ ys).drop k = ys := by
  have h2 := drop_pad h ys 0
  simpa using h2

theorem parseDate_pad {y m d : Nat} (hy : y < 10 ^ 4) (hm : m < 10 ^ 2) (hd : d < 10 ^ 2) :
    parseDate (pad 4 y ++ '-' :: (pad 2 m ++ '-' :: pad 2 d)) = some (y, m, d) := by
  have e1 := take_pad_len hy ('-' :: (pad 2 m ++ '-' :: pad 2 d))
  have e2 := drop_pad_len hy ('-' :: (pad 2 m ++ '-' :: pad 2 d))
  have e3 := take_pad_len hm ('-' :: pad 2 d)
  have e4 := drop_pad_len hm ('-' :: pad 2 d)
  simp only [parseDate, e1, e2, readNat_pad 4 y (by norm_num) hy, List.drop_succ_cons,
    List.take_succ_cons, e3, e4, readNat_pad 2 m (by norm_num) hm,
    pad_length 2 d hd, readNat_pad 2 d (by norm_num) hd]
  rfl

theorem parseHMSF_pad {h mi sec us : Nat}
    (hh : h < 10 ^ 2) (hmi : mi < 10 ^ 2) (hsec : sec < 10 ^ 2) (hus : us < 10 ^ 6) :
    parseHMSF (pad 2 h ++ ':' :: (pad 2 mi ++ ':' :: (pad 2 sec ++
      (if us ≠ 0 then '.' :: pad 6 us else [])))) = some (h, mi, sec, us) := by
  by_cases hus0 : us = 0
  · subst hus0
    simp only [ne_eq, not_true_eq_false, if_false, List.append_nil]
    have hlen : (pad 2 h ++ ':' :: (pad 2 mi ++ ':' :: pad 2 sec)).length = 8 := by
      simp [List.length_append, pad_length 2 h hh, pad_length 2 mi hmi, pad_length 2 sec hsec]
    have e1 := take_pad_len hh (':' :: (pad 2 mi ++ ':' :: pad 2 sec))
    have e2 := drop_pad_len hh (':' :: (pad 2 mi ++ ':' :: pad 2 sec))
    have hlen1 : (pad 2 mi ++ ':' :: pad 2 sec).length = 5 := by
      simp [List.length_append, pad_length 2 mi hmi, pad_length 2 sec hsec]
    have e3 := take_pad_len hmi (':' :: pad 2 sec)
    have e4 := drop_pad_len hmi (':' :: pad 2 sec)
    simp only [parseHMSF, hlen, e1, e2, readNat_pad 2 h (by norm_num) hh,
      List.drop_succ_cons, List.take_succ_cons, hlen1, e3, e4,
      readNat_pad 2 mi (by norm_num) hmi, pad_length 2 sec hsec,
      readNat_pad 2 sec (by norm_num) hsec]
    rfl
  · simp only [ne_eq, hus0, not_false_eq_true, if_true]
    have hlen : (pad 2 h ++ ':' :: (pad 2 mi ++ ':' :: (pad 2 sec ++ '.' :: pad 6 us))).length
        = 8 + 7 := by
      simp [List.length_append, pad_length 2 h hh, pad_length 2 mi hmi,
        pad_length 2 sec hsec, pad_length 6 us hus]
    have e1 := take_pad_len hh (':' :: (pad 2 mi ++ ':' :: (pad 2 sec ++ '.' :: pad 6 us)))
    have e2 := drop_pad_len hh (':' :: (pad 2 mi ++ ':' :: (pad 2 sec ++ '.' :: pad 6 us)))
    have hlen1 : (pad 2 mi ++ ':' :: (pad 2 sec ++ '.' :: pad 6 us)).length = 12 := by
      simp [List.length_append, pad_length 2 mi hmi, pad_length 2 sec hsec, pad_length 6 us hus]
    have e3 := take_pad_len hmi (':' :: (pad 2 sec ++ '.' :: pad 6 us))
    have e4 := drop_pad_len hmi (':' :: (pad 2 sec ++ '.' :: pad 6 us))
    have hlen2 : (pad 2 sec ++ '.' :: pad 6 us).length = 9 := by
      simp [List.length_append, pad_length 2 sec hsec, pad_length 6 us hus]
    have e5 := take_pad_len hsec ('.' :: pad 6 us)
    have e6 := drop_pad_len hsec ('.' :: pad 6 us)
    simp only [parseHMSF, hlen, e1, e2, readNat_pad 2 h (by norm_num) hh,
      List.drop_succ_cons, List.take_succ_cons, hlen1, e3, e4,
      readNat_pad 2 mi (by norm_num) hmi, hlen2, e5, e6,
      readNat_pad 2 sec (by norm_num) hsec, pad_length 6 us hus,
      readNat_pad 6 us (by norm_num) hus]
    rfl

theorem splitTz_of (xs R : List Char)
    (hminus : ∀ c ∈ xs ++ '+' :: R, c ≠ '-') (hplus : ∀ c ∈ xs, c ≠ '+') :
    splitTz (xs ++ '+' :: R) = (xs, some (false, R)) := by
  rw [splitTz, findIdxC_none _ hminus, findIdxC_append_hit xs R hplus]
  have e1 := take_len_append xs ('+' :: R)
  have e2 := drop_app_len xs ('+' :: R) 1
  simp only [e1, e2, List.drop_succ_cons, List.drop_zero]

theorem isDigit_ne {c c' : Char} (h : c.isDigit = true) (h' : c'.isDigit = false) : c ≠ c' := by
  rintro rfl
  rw [h] at h'
  cases h'

theorem fromisoformat_isoformat (dt : DT) (hv : dt.Valid) (htz : dt.tzsec = some 0) :
    fromisoformat dt.isoformat = some dt := by
  obtain ⟨y, m, d, h, mi, sec, us, tz⟩ := dt
  unfold DT.Valid at hv
  dsimp only at hv htz
  subst htz
  obtain ⟨hy1, hy2, hm1, hm2, hd1, hd2, hh1, hmi1, hsec1, hus1⟩ := hv
  have hy : y < 10 ^ 4 := by norm_num; omega
  have hmm : m < 10 ^ 2 := by norm_num; omega
  have hdd : d < 10 ^ 2 := by
    have := daysInMonth_le_31 y m
    norm_num; omega
  have hhh : h < 10 ^ 2 := by norm_num; omega
  have hmim : mi < 10 ^ 2 := by norm_num; omega
  have hsecs : sec < 10 ^ 2 := by norm_num; omega
  have husu : us < 10 ^ 6 := by norm_num; omega
  have hfracd : ∀ c ∈ (if us ≠ 0 then '.' :: pad 6 us else []), c.isDigit = true ∨ c = '.' := by
    intro c hc
    split at hc
    · rcases List.mem_cons.mp hc with rfl | hc
      · right; rfl
      · left; exact chars_pad c hc
    · cases hc
  -- the rendered string, re-associated so that the time part is a prefix
  have hiso : DT.isoformat ⟨y, m, d, h, mi, sec, us, some 0⟩ =
      String.mk (pad 4 y ++ '-' :: (pad 2 m ++ '-' :: (pad 2 d ++ 'T' ::
        ((pad 2 h ++ ':' :: (pad 2 mi ++ ':' :: (pad 2 sec ++
          (if us ≠ 0 then '.' :: pad 6 us else [])))) ++
          '+' :: ['0', '0', ':', '0', '0'])))) := by
    show String.mk _ = String.mk _
    congr 1
    simp only [List.append_assoc, List.cons_append]
    rfl
  rw [hiso]
  have hTd : ∀ c ∈ (pad 2 h ++ ':' :: (pad 2 mi ++ ':' :: (pad 2 sec ++
      (if us ≠ 0 then '.' :: pad 6 us else [])))), c.isDigit = true ∨ c = ':' ∨ c = '.' := by
    intro c hc
    simp only [List.mem_append, List.mem_cons] at hc
    rcases hc with hc | rfl | hc | rfl | hc | hc
    · exact Or.inl (chars_pad c hc)
    · exact Or.inr (Or.inl rfl)
    · exact Or.inl (chars_pad c hc)
    · exact Or.inr (Or.inl rfl)
    · exact Or.inl (chars_pad c hc)
    · rcases hfracd c hc with hd' | rfl
      · exact Or.inl hd'
      · exact Or.inr (Or.inr rfl)
  have hsplit : splitTz ((pad 2 h ++ ':' :: (pad 2 mi ++ ':' :: (pad 2 sec ++
      (if us ≠ 0 then '.' :: pad 6 us else [])))) ++ '+' :: ['0', '0', ':', '0', '0'])
      = (pad 2 h ++ ':' :: (pad 2 mi ++ ':' :: (pad 2 sec ++
          (if us ≠ 0 then '.' :: pad 6 us else []))), some (false, ['0', '0', ':', '0', '0'])) := by
    apply splitTz_of
    · intro c hc
      rcases List.mem_append.mp hc with hc | hc
      · rcases hTd c hc with hd' | rfl | rfl
        · exact isDigit_ne hd' (by decide)
        · decide
        · decide
      · rcases List.mem_cons.mp hc with rfl | hc
        · decide
        · fin_cases hc <;> decide
    · intro c hc
      rcases hTd c hc with hd' | rfl | rfl
      · exact isDigit_ne hd' (by decide)
      · decide
      · decide
  have htake10 : ∀ R : List Char,
      (pad 4 y ++ '-' :: (pad 2 m ++ '-' :: (pad 2 d ++ 'T' :: R))).take 10
      = pad 4 y ++ '-' :: (pad 2 m ++ '-' :: pad 2 d) := by
    intro R
    have s1 : (pad 4 y ++ '-' :: (pad 2 m ++ '-' :: (pad 2 d ++ 'T' :: R))).take 10
        = pad 4 y ++ ('-' :: (pad 2 m ++ '-' :: (pad 2 d ++ 'T' :: R))).take 6 :=
      take_pad hy _ 6
    have s2 : ('-' :: (pad 2 m ++ '-' :: (pad 2 d ++ 'T' :: R))).take 6
        = '-' :: (pad 2 m ++ '-' :: (pad 2 d ++ 'T' :: R)).take 5 :=
      List.take_succ_cons
    have s3 : (pad 2 m ++ '-' :: (pad 2 d ++ 'T' :: R)).take 5
        = pad 2 m ++ ('-' :: (pad 2 d ++ 'T' :: R)).take 3 :=
      take_pad hmm _ 3
    have s4 : ('-' :: (pad 2 d ++ 'T' :: R)).take 3
        = '-' :: (pad 2 d ++ 'T' :: R).take 2 :=
      List.take_succ_cons
    have s5 : (pad 2 d ++ 'T' :: R).take 2 = pad 2 d :=
      take_pad_len hdd _
    rw [s1, s2, s3, s4, s5]
  have hdrop10 : ∀ R : List Char,
      (pad 4 y ++ '-' :: (pad 2 m ++ '-' :: (pad 2 d ++ 'T' :: R))).drop 10 = 'T' :: R := by
    intro R
    have s1 : (pad 4 y ++ '-' :: (pad 2 m ++ '-' :: (pad 2 d ++ 'T' :: R))).drop 10
        = ('-' :: (pad 2 m ++ '-' :: (pad 2 d ++ 'T' :: R))).drop 6 :=
      drop_pad hy _ 6
    have s2 : ('-' :: (pad 2 m ++ '-' :: (pad 2 d ++ 'T' :: R))).drop 6
        = (pad 2 m ++ '-' :: (pad 2 d ++ 'T' :: R)).drop 5 :=
      List.drop_succ_cons
    have s3 : (pad 2 m ++ '-' :: (pad 2 d ++ 'T' :: R)).drop 5
        = ('-' :: (pad 2 d ++ 'T' :: R)).drop 3 :=
      drop_pad hmm _ 3
    have s4 : ('-' :: (pad 2 d ++ 'T' :: R)).drop 3 = (pad 2 d ++ 'T' :: R).drop 2 :=
      List.drop_succ_cons
    have s5 : (pad 2 d ++ 'T' :: R).drop 2 = 'T' :: R :=
      drop_pad_len hdd _
    rw [s1, s2, s3, s4, s5]
  rw [fromisoformat]
  dsimp only
  rw [htake10, parseDate_pad hy hmm hdd]
  dsimp only
  rw [hdrop10]
  dsimp only
  rw [hsplit]
  dsimp only
  rw [parseHMSF_pad hhh hmim hsecs husu]
  dsimp only
  norm_num
  rw [show parseHMSF ['0', '0', ':', '0', '0'] = some (0, 0, 0, 0) from by decide]
  dsimp only
  norm_num
  rw [mkDT, if_pos]
  exact ⟨hy1, hy2, hm1, hm2, hd1, hd2, hh1, hmi1, hsec1, hus1⟩

theorem Valid_tzupdate (d : DT) (t : Option Int) : ({ d with tzsec := t } : DT).Valid ↔ d.Valid := by
  obtain ⟨y, m, dd, h, mi, s, us, tz⟩ := d
  exact Iff.rfl

theorem tzsec_update (d : DT) (t : Option Int) : ({ d with tzsec := t } : DT).tzsec = t := by
  obtain ⟨y, m, dd, h, mi, s, us, tz⟩ := d
  rfl

theorem daysInMonth_12 (y : Nat) : daysInMonth y 12 = 31 := by
  unfold daysInMonth
  norm_num

theorem prevDay_spec (y m d : Nat) (hm1 : 1 ≤ m) (hm2 : m ≤ 12) (hd1 : 1 ≤ d)
    (hd2 : d ≤ daysInMonth y m) :
    1 ≤ (prevDay y m d).2.1 ∧ (prevDay y m d).2.1 ≤ 12 ∧ 1 ≤ (prevDay y m d).2.2 ∧
    (prevDay y m d).2.2 ≤ daysInMonth (prevDay y m d).1 (prevDay y m d).2.1 ∧
    (prevDay y m d).1 ≤ y ∧ y ≤ (prevDay y m d).1 + 1 := by
  rw [prevDay]
  split_ifs with h1 h2 <;> dsimp only
  · exact ⟨hm1, hm2, by omega, by omega, le_refl _, by omega⟩
  · exact ⟨by omega, by omega, one_le_daysInMonth _ _, le_refl _, le_refl _, by omega⟩
  · refine ⟨by omega, by omega, by omega, ?_, by omega, by omega⟩
    rw [daysInMonth_12]

theorem nextDay_spec (y m d : Nat) (hm1 : 1 ≤ m) (hm2 : m ≤ 12) (hd1 : 1 ≤ d)
    (hd2 : d ≤ daysInMonth y m) :
    1 ≤ (nextDay y m d).2.1 ∧ (nextDay y m d).2.1 ≤ 12 ∧ 1 ≤ (nextDay y m d).2.2 ∧
    (nextDay y m d).2.2 ≤ daysInMonth (nextDay y m d).1 (nextDay y m d).2.1 ∧
    y ≤ (nextDay y m d).1 ∧ (nextDay y m d).1 ≤ y + 1 := by
  rw [nextDay]
  split_ifs with h1 h2 <;> dsimp only
  · exact ⟨hm1, hm2, by omega, by omega, le_refl _, by omega⟩
  · exact ⟨by omega, by omega, by omega, one_le_daysInMonth _ _, le_refl _, by omega⟩
  · exact ⟨by omega, by omega, by omega, one_le_daysInMonth _ _, by omega, le_refl _⟩

theorem addSecondsSmall_zero (dt : DT) (hv : dt.Valid) : addSecondsSmall dt 0 = some dt := by
  obtain ⟨y, m, d, h, mi, sec, us, tz⟩ := dt
  unfold DT.Valid at hv
  dsimp only at hv
  obtain ⟨hy1, hy2, hm1, hm2, hd1, hd2, hh, hmi, hsec, hus⟩ := hv
  rw [addSecondsSmall]
  dsimp only
  rw [if_neg (by omega), if_pos (by omega)]
  congr 1
  have h1 : ((3600 * (h : Int) + 60 * mi + sec + 0).toNat) = 3600 * h + 60 * mi + sec := by
    omega
  rw [h1]
  congr 1 <;> omega

theorem addSecondsSmall_valid {dt dt' : DT} {δ : Int} (hv : dt.Valid)
    (h1 : -86400 < δ) (h2 : δ < 86400) (h : addSecondsSmall dt δ = some dt') :
    dt'.Valid ∧ dt'.tzsec = dt.tzsec := by
  obtain ⟨y, m, d, h0, mi, sec, us, tz⟩ := dt
  unfold DT.Valid at hv
  dsimp only at hv
  obtain ⟨hy1, hy2, hm1, hm2, hd1, hd2, hh, hmi, hsec, hus⟩ := hv
  rw [addSecondsSmall] at h
  dsimp only at h
  split_ifs at h with ht1 hyl ht2 hyh
  all_goals obtain ⟨hp1, hp2, hp3, hp4, hp5, hp6⟩ := prevDay_spec y m d hm1 hm2 hd1 hd2
  all_goals obtain ⟨hq1, hq2, hq3, hq4, hq5, hq6⟩ := nextDay_spec y m d hm1 hm2 hd1 hd2
  all_goals cases h
  all_goals unfold DT.Valid
  all_goals dsimp only
  all_goals refine ⟨⟨?_, ?_, ?_, ?_, ?_, ?_, ?_, ?_, ?_, ?_⟩, rfl⟩
  all_goals first
    | exact hp4
    | exact hq4
    | exact hd2
    | exact hus
    | omega

set_option maxRecDepth 4000 in
theorem fromisoformat_valid {s : String} {dt : DT} (h : fromisoformat s = some dt) :
    dt.Valid ∧ ∀ off : Int, dt.tzsec = some off → -86400 < off ∧ off < 86400 := by
  rw [fromisoformat] at h
  dsimp only at h
  split at h
  · exact Option.noConfusion h
  · split at h
    · obtain ⟨rfl, hv⟩ := mkDT_eq_some h
      exact ⟨hv, fun off hoff => Option.noConfusion hoff⟩
    · split at h
      · exact Option.noConfusion h
      · split at h
        · obtain ⟨rfl, hv⟩ := mkDT_eq_some h
          exact ⟨hv, fun off hoff => Option.noConfusion hoff⟩
        · split at h
          · split at h
            · split_ifs at h with h1 h2
              all_goals obtain ⟨rfl, hv⟩ := mkDT_eq_some h
              all_goals refine ⟨hv, fun off hoff => ?_⟩
              all_goals cases hoff
              all_goals exact ⟨by omega, by omega⟩
            · exact absurd h (by simp)
          · exact absurd h (by simp)

theorem convert_canonical {s : String} {dt : DT}
    (h : convert_timestamp_to_utc s = some dt) : dt.Valid ∧ dt.tzsec = some 0 := by
  rw [convert_timestamp_to_utc] at h
  split_ifs at h with hs
  split at h
  · exact Option.noConfusion h
  · rename_i dt0 heq
    obtain ⟨hv0, hoff0⟩ := fromisoformat_valid heq
    rw [astimezoneUTC] at h
    split at h
    · exact Option.noConfusion h
    · rename_i off hsome
      rw [Option.map_eq_some'] at h
      obtain ⟨dc, hadd, rfl⟩ := h
      have hb : -86400 < off ∧ off < 86400 := by
        by_cases h0 : dt0.tzsec = none
        · rw [if_pos h0, tzsec_update] at hsome
          cases hsome
          rw [INPUT_TIMEZONE_OFFSET]
          norm_num
        · rw [if_neg h0] at hsome
          exact hoff0 off hsome
      have hvloc : (if dt0.tzsec = none then { dt0 with tzsec := some INPUT_TIMEZONE_OFFSET } else dt0).Valid := by
        split
        · exact (Valid_tzupdate _ _).mpr hv0
        · exact hv0
      obtain ⟨hvc, _⟩ := addSecondsSmall_valid hvloc (by omega) (by omega) hadd
      exact ⟨(Valid_tzupdate _ _).mpr hvc, tzsec_update _ _⟩

theorem replaceChars_no_hit {p : Char} {rep : List Char} :
    ∀ (fuel : Nat) (cs : List Char), (∀ c ∈ cs, c ≠ p) → replaceChars [p] rep fuel cs = cs := by
  intro fuel
  induction fuel with
  | zero => intro cs _; cases cs <;> rfl
  | succ f ih =>
    intro cs hmem
    cases cs with
    | nil => rfl
    | cons c cs =>
      rw [replaceChars, if_neg, ih cs (fun c' hc' => hmem c' (List.mem_cons_of_mem c hc'))]
      intro hpre
      have : p = c := by
        have h1 := List.isPrefixOf_iff_prefix.mp hpre
        rcases h1 with ⟨t, ht⟩
        cases ht
        rfl
      exact hmem c (List.mem_cons_self c cs) this.symm

theorem strReplace_no_hit {s : String} {p : Char} {rep : String}
    (h : ∀ c ∈ s.data, c ≠ p) : strReplace s (String.mk [p]) rep = s := by
  rw [strReplace, if_neg (by simp)]
  rw [show (String.mk [p]).data = [p] from rfl, replaceChars_no_hit _ _ h]

theorem pad_ne_nil' (k n : Nat) (hk : 1 ≤ k) : pad k n ≠ [] := by
  match n with
  | 0 =>
    rw [pad]
    show List.replicate (k - (natChars 0).length) '0' ++ natChars 0 ≠ []
    rw [show natChars 0 = [] from rfl]
    simp
    omega
  | n + 1 =>
    rw [pad]
    intro hnil
    rcases List.append_eq_nil.mp hnil with ⟨_, h2⟩
    rw [natChars] at h2
    rw [List.reverse_eq_nil_iff] at h2
    rw [show natDigitsAux (n + 1) (n + 1)
          = Char.ofNat (48 + (n + 1) % 10) :: natDigitsAux n ((n + 1) / 10) from rfl] at h2
    cases h2

theorem isoformat_ne_empty (dt : DT) : dt.isoformat ≠ "" := by
  intro h
  have h2 := congrArg String.data h
  rw [show ("" : String).data = [] from rfl] at h2
  rw [DT.isoformat] at h2
  dsimp only at h2
  rcases List.append_eq_nil.mp h2 with ⟨h3, _⟩
  exact pad_ne_nil' 4 dt.year (by norm_num) h3

theorem data_mk (L : List Char) : (String.mk L).data = L := rfl

theorem tzupdate_self (d : DT) : ({ d with tzsec := d.tzsec } : DT) = d := by
  obtain ⟨y, m, dd, h, mi, s, us, tz⟩ := d
  rfl

theorem isoformat_chars {dt : DT} (htz : dt.tzsec = some 0) :
    ∀ c ∈ dt.isoformat.data, c.isDigit = true ∨ c ∈ ['-', ':', '.', 'T', '+'] := by
  obtain ⟨y, m, d, h, mi, sec, us, tz⟩ := dt
  dsimp only at htz
  subst htz
  have hiso : DT.isoformat ⟨y, m, d, h, mi, sec, us, some 0⟩ =
      String.mk (pad 4 y ++ '-' :: (pad 2 m ++ '-' :: (pad 2 d ++ 'T' ::
        (pad 2 h ++ ':' :: (pad 2 mi ++ ':' :: (pad 2 sec ++
          ((if us ≠ 0 then '.' :: pad 6 us else []) ++ ['+', '0', '0', ':', '0', '0']))))))) := rfl
  intro c hc
  rw [hiso, data_mk] at hc
  have hfrac : ∀ x ∈ (if us ≠ 0 then '.' :: pad 6 us else []), x.isDigit = true ∨ x = '.' := by
    intro x hx
    split at hx
    · rcases List.mem_cons.mp hx with rfl | hx
      · exact Or.inr rfl
      · exact Or.inl (chars_pad x hx)
    · cases hx
  rcases List.mem_append.mp hc with h1 | h1
  · exact Or.inl (chars_pad c h1)
  rcases List.mem_cons.mp h1 with rfl | h1
  · exact Or.inr (by decide)
  rcases List.mem_append.mp h1 with h1 | h1
  · exact Or.inl (chars_pad c h1)
  rcases List.mem_cons.mp h1 with rfl | h1
  · exact Or.inr (by decide)
  rcases List.mem_append.mp h1 with h1 | h1
  · exact Or.inl (chars_pad c h1)
  rcases List.mem_cons.mp h1 with rfl | h1
  · exact Or.inr (by decide)
  rcases List.mem_append.mp h1 with h1 | h1
  · exact Or.inl (chars_pad c h1)
  rcases List.mem_cons.mp h1 with rfl | h1
  · exact Or.inr (by decide)
  rcases List.mem_append.mp h1 with h1 | h1
  · exact Or.inl (chars_pad c h1)
  rcases List.mem_cons.mp h1 with rfl | h1
  · exact Or.inr (by decide)
  rcases List.mem_append.mp h1 with h1 | h1
  · exact Or.inl (chars_pad c h1)
  rcases List.mem_append.mp h1 with h1 | h1
  · rcases hfrac c h1 with hd | rfl
    · exact Or.inl hd
    · exact Or.inr (by decide)
  · fin_cases h1 <;> decide

theorem timeTransform_isoformat {dt : DT} (hv : dt.Valid) (htz : dt.tzsec = some 0) :
    timeTransform (.jstr dt.isoformat) = .jstr dt.isoformat := by
  have hZ : strReplace dt.isoformat "Z" "+00:00" = dt.isoformat :=
    strReplace_no_hit (fun c hc => by
      rcases isoformat_chars htz c hc with hd | hm
      · exact isDigit_ne hd (by decide)
      · fin_cases hm <;> decide)
  have hconv : convert_timestamp_to_utc dt.isoformat = some dt := by
    rw [convert_timestamp_to_utc, if_neg (isoformat_ne_empty dt), hZ,
      fromisoformat_isoformat dt hv htz]
    dsimp only
    rw [if_neg (by rw [htz]; simp)]
    rw [astimezoneUTC, htz]
    dsimp only
    rw [show (-(0 : Int)) = 0 from rfl, addSecondsSmall_zero dt hv]
    rw [Option.map_some']
    rw [← htz, tzupdate_self]
  rw [timeTransform]
  simp only [pyStr, hconv]

theorem timeTransform_canonical (v : JVal) :
    timeTransform v = .jnull ∨
      ∃ dt : DT, dt.Valid ∧ dt.tzsec = some 0 ∧ timeTransform v = .jstr dt.isoformat := by
  rw [timeTransform]
  split
  · rename_i dt heq
    obtain ⟨hval, htz⟩ := convert_canonical heq
    exact Or.inr ⟨dt, hval, htz, rfl⟩
  · exact Or.inl rfl

/-! ## Lemmas: record update algebra -/

theorem Rec.set_cons (k' : String) (w : JVal) (r : Rec) (k : String) (v : JVal) :
    Rec.set ((k', w) :: r) k v = (if k' = k then (k, v) else (k', w)) :: Rec.set r k v := rfl

theorem Rec.hasKey_cons (k' : String) (w : JVal) (r : Rec) (k : String) :
    Rec.hasKey ((k', w) :: r) k = (decide (k' = k) || Rec.hasKey r k) := by
  simp [Rec.hasKey, JVal.hasKeyO]

theorem lookupLast_set_self (r : Rec) (k : String) (v : JVal) :
    JVal.lookupLast (r.set k v) k = if r.hasKey k then some v else none := by
  induction r with
  | nil => rfl
  | cons p r ih =>
    obtain ⟨k', w⟩ := p
    rw [Rec.set_cons, JVal.lookupLast, ih, Rec.hasKey_cons]
    by_cases hk : k' = k
    · subst hk
      by_cases hr : Rec.hasKey r k' = true
      · simp [hr]
      · simp [hr]
    · by_cases hr : Rec.hasKey r k = true
      · simp [hk, hr]
      · simp [hk, hr]

theorem lookupLast_set_ne (r : Rec) {k k' : String} (h : k' ≠ k) (v : JVal) :
    JVal.lookupLast (r.set k' v) k = JVal.lookupLast r k := by
  induction r with
  | nil => rfl
  | cons p r ih =>
    obtain ⟨k0, w⟩ := p
    rw [Rec.set_cons, JVal.lookupLast, ih, JVal.lookupLast]
    by_cases h0 : k0 = k'
    · subst h0
      simp [h]
    · simp [h0]

theorem Rec.keys_set (r : Rec) (k : String) (v : JVal) : (r.set k v).keys = r.keys := by
  induction r with
  | nil => rfl
  | cons p r ih =>
    obtain ⟨k0, w⟩ := p
    rw [Rec.set_cons]
    by_cases h0 : k0 = k
    · subst h0
      simp [Rec.keys] at ih ⊢
      exact ih
    · simp [h0, Rec.keys] at ih ⊢
      exact ih

theorem Rec.hasKey_keys (r : Rec) (k : String) : r.hasKey k = (r.keys.contains k) := by
  induction r with
  | nil => rfl
  | cons p r ih =>
    obtain ⟨k0, w⟩ := p
    rw [Rec.hasKey_cons, ih]
    simp [Rec.keys, List.contains_cons]
    by_cases h : k0 = k
    · simp [h, beq_iff_eq]
    · simp [h, beq_iff_eq, Ne.symm h]

theorem Rec.hasKey_set (r : Rec) (k k' : String) (v : JVal) :
    (r.set k' v).hasKey k = r.hasKey k := by
  rw [Rec.hasKey_keys, Rec.hasKey_keys, Rec.keys_set]

theorem Rec.get_set_self {r : Rec} {k : String} (h : r.hasKey k = true) (v : JVal) :
    (r.set k v).get k = v := by
  rw [Rec.get, lookupLast_set_self, if_pos h]
  rfl

theorem Rec.get_set_ne {r : Rec} {k k' : String} (h : k' ≠ k) (v : JVal) :
    (r.set k' v).get k = r.get k := by
  rw [Rec.get, lookupLast_set_ne r h, Rec.get]

theorem Rec.set_set_self (r : Rec) (k : String) (w v : JVal) :
    (r.set k w).set k v = r.set k v := by
  rw [Rec.set, Rec.set, Rec.set, List.map_map]
  apply List.map_congr_left
  intro p _
  by_cases h : p.1 = k
  · simp [Function.comp, h]
  · simp [Function.comp, h]

theorem Rec.set_comm (r : Rec) {k k' : String} (h : k ≠ k') (v w : JVal) :
    (r.set k v).set k' w = (r.set k' w).set k v := by
  rw [Rec.set, Rec.set, Rec.set, Rec.set, List.map_map, List.map_map]
  apply List.map_congr_left
  intro p _
  by_cases h1 : p.1 = k
  · subst h1
    simp [Function.comp, h, Ne.symm h]
  · by_cases h2 : p.1 = k'
    · subst h2
      simp [Function.comp, h1, h]
    · simp [Function.comp, h1, h2]

/-! ## Lemmas: idempotence of `normalize_record` -/

theorem normalize_numeric_value_shape (v : JVal) :
    normalize_numeric_value v = .jnull ∨ ∃ q, normalize_numeric_value v = .jnum q := by
  rw [normalize_numeric_value]
  split_ifs
  · exact Or.inl rfl
  · split
    · exact Or.inr ⟨_, rfl⟩
    · exact Or.inl rfl

theorem normalize_numeric_value_idem (v : JVal) :
    normalize_numeric_value (normalize_numeric_value v) = normalize_numeric_value v := by
  rcases normalize_numeric_value_shape v with h | ⟨q, h⟩
  · rw [h]
    rfl
  · rw [h, normalize_numeric_value, if_neg (by simp)]
    rfl

theorem truthy_timeTransform_jstr {dt : DT} :
    JVal.truthy (.jstr dt.isoformat) = true := by
  simp [JVal.truthy, isoformat_ne_empty dt]

theorem normNumCol_idem (c : String) (r : Rec) :
    normNumCol c (normNumCol c r) = normNumCol c r := by
  by_cases hk : r.hasKey c = true
  · have hinner : normNumCol c r = r.set c (normalize_numeric_value (r.get c)) := by
      rw [normNumCol, if_pos hk]
    conv_lhs => rw [normNumCol]
    rw [hinner, Rec.hasKey_set, if_pos hk, Rec.get_set_self hk,
      normalize_numeric_value_idem, Rec.set_set_self]
  · have hinner : normNumCol c r = r := by rw [normNumCol, if_neg hk]
    rw [hinner, hinner]

theorem normTimeCol_idem (c : String) (r : Rec) :
    normTimeCol c (normTimeCol c r) = normTimeCol c r := by
  by_cases hc : (r.hasKey c && (r.get c).truthy) = true
  · have hk : r.hasKey c = true := (Bool.and_eq_true _ _ |>.mp hc).1
    have hinner : normTimeCol c r = r.set c (timeTransform (r.get c)) := by
      rw [normTimeCol, if_pos hc]
    conv_lhs => rw [normTimeCol]
    rw [hinner, Rec.hasKey_set, Rec.get_set_self hk]
    rcases timeTransform_canonical (r.get c) with hnull | ⟨dt, hvdt, htzdt, hiso⟩
    · rw [hnull]
      rw [if_neg (by simp [JVal.truthy])]
    · rw [hiso, timeTransform_isoformat hvdt htzdt,
        if_pos (by simp [hk, truthy_timeTransform_jstr]),
        Rec.set_set_self]
  · have hinner : normTimeCol c r = r := by rw [normTimeCol, if_neg hc]
    rw [hinner, hinner]

theorem normNumCol_absent {c : String} {r : Rec} (h : ¬r.hasKey c = true) :
    normNumCol c r = r := by
  rw [normNumCol, if_neg h]

theorem normTimeCol_absent {c : String} {r : Rec}
    (h : ¬(r.hasKey c && (r.get c).truthy) = true) : normTimeCol c r = r := by
  rw [normTimeCol, if_neg h]

theorem hasKey_normNumCol (c k : String) (r : Rec) :
    (normNumCol c r).hasKey k = r.hasKey k := by
  rw [normNumCol]
  split
  · rw [Rec.hasKey_set]
  · rfl

theorem hasKey_normTimeCol (c k : String) (r : Rec) :
    (normTimeCol c r).hasKey k = r.hasKey k := by
  rw [normTimeCol]
  split
  · rw [Rec.hasKey_set]
  · rfl

theorem get_normNumCol_ne {c k : String} (h : c ≠ k) (r : Rec) :
    (normNumCol c r).get k = r.get k := by
  rw [normNumCol]
  split
  · rw [Rec.get_set_ne h]
  · rfl

theorem get_normTimeCol_ne {c k : String} (h : c ≠ k) (r : Rec) :
    (normTimeCol c r).get k = r.get k := by
  rw [normTimeCol]
  split
  · rw [Rec.get_set_ne h]
  · rfl

theorem normNumCol_comm {c c' : String} (h : c ≠ c') (r : Rec) :
    normNumCol c (normNumCol c' r) = normNumCol c' (normNumCol c r) := by
  by_cases hk : r.hasKey c = true
  · by_cases hk' : r.hasKey c' = true
    · have h1 : normNumCol c' r = r.set c' (normalize_numeric_value (r.get c')) := by
        rw [normNumCol, if_pos hk']
      have h2 : normNumCol c r = r.set c (normalize_numeric_value (r.get c)) := by
        rw [normNumCol, if_pos hk]
      rw [h1, h2, normNumCol, normNumCol, Rec.hasKey_set, Rec.hasKey_set,
        if_pos hk, if_pos hk', Rec.get_set_ne (Ne.symm h), Rec.get_set_ne h,
        Rec.set_comm r (Ne.symm h)]
    · have hk2 : ¬(normNumCol c r).hasKey c' = true := by
        rw [hasKey_normNumCol]; exact hk'
      rw [normNumCol_absent hk', normNumCol_absent hk2]
  · have hk2 : ¬(normNumCol c' r).hasKey c = true := by
      rw [hasKey_normNumCol]; exact hk
    rw [normNumCol_absent hk2, normNumCol_absent hk]

theorem normTimeCol_comm {c c' : String} (h : c ≠ c') (r : Rec) :
    normTimeCol c (normTimeCol c' r) = normTimeCol c' (normTimeCol c r) := by
  by_cases hc : (r.hasKey c && (r.get c).truthy) = true
  · by_cases hc' : (r.hasKey c' && (r.get c').truthy) = true
    · have h1 : normTimeCol c' r = r.set c' (timeTransform (r.get c')) := by
        rw [normTimeCol, if_pos hc']
      have h2 : normTimeCol c r = r.set c (timeTransform (r.get c)) := by
        rw [normTimeCol, if_pos hc]
      rw [h1, h2, normTimeCol, normTimeCol, Rec.hasKey_set, Rec.hasKey_set,
        Rec.get_set_ne (Ne.symm h), Rec.get_set_ne h, if_pos hc, if_pos hc',
        Rec.set_comm r (Ne.symm h)]
    · have hc2 : ¬((normTimeCol c r).hasKey c' && ((normTimeCol c r).get c').truthy) = true := by
        rw [hasKey_normTimeCol, get_normTimeCol_ne h]; exact hc'
      rw [normTimeCol_absent hc', normTimeCol_absent hc2]
  · have hc2 : ¬((normTimeCol c' r).hasKey c && ((normTimeCol c' r).get c).truthy) = true := by
      rw [hasKey_normTimeCol, get_normTimeCol_ne (Ne.symm h)]; exact hc
    rw [normTimeCol_absent hc2, normTimeCol_absent hc]

theorem normTimeNumCol_comm {c c' : String} (h : c ≠ c') (r : Rec) :
    normNumCol c' (normTimeCol c r) = normTimeCol c (normNumCol c' r) := by
  by_cases hc : (r.hasKey c && (r.get c).truthy) = true
  · by_cases hk' : r.hasKey c' = true
    · have h1 : normTimeCol c r = r.set c (timeTransform (r.get c)) := by
        rw [normTimeCol, if_pos hc]
      have h2 : normNumCol c' r = r.set c' (normalize_numeric_value (r.get c')) := by
        rw [normNumCol, if_pos hk']
      rw [h1, h2, normNumCol, normTimeCol, Rec.hasKey_set, Rec.hasKey_set,
        Rec.get_set_ne h, Rec.get_set_ne (Ne.symm h), if_pos hk', if_pos hc,
        Rec.set_comm r h]
    · have hk2 : ¬(normTimeCol c r).hasKey c' = true := by
        rw [hasKey_normTimeCol]; exact hk'
      rw [normNumCol_absent hk2, normNumCol_absent hk']
  · have hc2 : ¬((normNumCol c' r).hasKey c && ((normNumCol c' r).get c).truthy) = true := by
      rw [hasKey_normNumCol, get_normNumCol_ne (Ne.symm h)]; exact hc
    rw [normTimeCol_absent hc, normTimeCol_absent hc2]

/-- Applies a list of record rewrites left to right (both column loops of
`normalize_record` have this shape). -/
def applyOps (ops : List (Rec → Rec)) (r : Rec) : Rec :=
  ops.foldl (fun acc o => o acc) r

theorem applyOps_commute {o : Rec → Rec} :
    ∀ {ops : List (Rec → Rec)}, (∀ o' ∈ ops, ∀ r, o (o' r) = o' (o r)) →
      ∀ r, o (applyOps ops r) = applyOps ops (o r) := by
  intro ops
  induction ops with
  | nil => intro _ r; rfl
  | cons o' ops ih =>
    intro h r
    show o (applyOps ops (o' r)) = applyOps ops (o' (o r))
    rw [ih (fun o2 h2 => h o2 (List.mem_cons_of_mem o' h2)),
      h o' (List.mem_cons_self o' ops)]

theorem applyOps_idem :
    ∀ {ops : List (Rec → Rec)}, (∀ o ∈ ops, ∀ r, o (o r) = o r) →
      ops.Pairwise (fun o1 o2 => ∀ r, o1 (o2 r) = o2 (o1 r)) →
      ∀ r, applyOps ops (applyOps ops r) = applyOps ops r := by
  intro ops
  induction ops with
  | nil => intro _ _ r; rfl
  | cons o ops ih =>
    intro hid hcomm r
    obtain ⟨hrel, hpw⟩ := List.pairwise_cons.mp hcomm
    show applyOps ops (o (applyOps ops (o r))) = applyOps ops (o r)
    have e1 : o (applyOps ops (o r)) = applyOps ops (o (o r)) :=
      applyOps_commute hrel (o r)
    rw [e1, hid o (List.mem_cons_self o ops) r]
    exact ih (fun o' h' => hid o' (List.mem_cons_of_mem o h')) hpw (o r)

/-- `normalize_record` as a single operation pipeline. -/
theorem normalize_record_eq_applyOps (r : Rec) :
    normalize_record r =
      applyOps (TIME_COLUMNS.map normTimeCol ++ NUMERIC_COLUMNS.map normNumCol) r := by
  rw [normalize_record, applyOps, List.foldl_append, List.foldl_map, List.foldl_map]

theorem normalize_record_idem (r : Rec) :
    normalize_record (normalize_record r) = normalize_record r := by
  rw [normalize_record_eq_applyOps, normalize_record_eq_applyOps]
  apply applyOps_idem
  · intro o ho r'
    rcases List.mem_append.mp ho with ho | ho
    · obtain ⟨c, _, rfl⟩ := List.mem_map.mp ho
      exact normTimeCol_idem c r'
    · obtain ⟨c, _, rfl⟩ := List.mem_map.mp ho
      exact normNumCol_idem c r'
  · rw [List.pairwise_append]
    refine ⟨?_, ?_, ?_⟩
    · rw [List.pairwise_map]
      have hne : TIME_COLUMNS.Pairwise (· ≠ ·) := by decide
      exact hne.imp (fun h r => normTimeCol_comm h r)
    · rw [List.pairwise_map]
      have hne : NUMERIC_COLUMNS.Pairwise (· ≠ ·) := by decide
      exact hne.imp (fun h r => normNumCol_comm h r)
    · intro o1 h1 o2 h2
      obtain ⟨c, hc, rfl⟩ := List.mem_map.mp h1
      obtain ⟨c', hc', rfl⟩ := List.mem_map.mp h2
      have hne : c ≠ c' := by
        have : ∀ a ∈ TIME_COLUMNS, ∀ b ∈ NUMERIC_COLUMNS, a ≠ b := by decide
        exact this c hc c' hc'
      intro r'
      exact (normTimeNumCol_comm hne r').symm

/-! ## Lemmas: `normalize_record` as a field-wise map -/

theorem hasKey_of_mem {r : Rec} {p : String × JVal} (hp : p ∈ r) : r.hasKey p.1 = true := by
  rw [Rec.hasKey, JVal.hasKeyO, List.any_eq_true]
  exact ⟨p, hp, by simp⟩

theorem foldTime_map (tcs : List String) :
    ∀ (r : Rec), tcs.Nodup →
      tcs.foldl (fun acc c => normTimeCol c acc) r =
        r.map (fun p => if p.1 ∈ tcs ∧ (r.get p.1).truthy = true
          then (p.1, timeTransform (r.get p.1)) else p) := by
  induction tcs with
  | nil =>
    intro r _
    simp
  | cons c tcs ih =>
    intro r hnd
    obtain ⟨hc_not, hnd'⟩ := List.nodup_cons.mp hnd
    rw [List.foldl_cons, ih (normTimeCol c r) hnd']
    have hget : ∀ k, k ∈ tcs → (normTimeCol c r).get k = r.get k := by
      intro k hk
      refine get_normTimeCol_ne ?_ r
      intro hck
      exact hc_not (hck ▸ hk)
    have step2 : (normTimeCol c r).map (fun p =>
        if p.1 ∈ tcs ∧ (((normTimeCol c r).get p.1)).truthy = true
        then (p.1, timeTransform ((normTimeCol c r).get p.1)) else p) =
      (normTimeCol c r).map (fun p =>
        if p.1 ∈ tcs ∧ (r.get p.1).truthy = true
        then (p.1, timeTransform (r.get p.1)) else p) := by
      apply List.map_congr_left
      intro p _
      by_cases hmem : p.1 ∈ tcs
      · rw [hget p.1 hmem]
      · rw [if_neg (fun hx => hmem hx.1), if_neg (fun hx => hmem hx.1)]
    rw [step2]
    by_cases hcond : (r.hasKey c && (r.get c).truthy) = true
    · have htr : (r.get c).truthy = true := (Bool.and_eq_true _ _ |>.mp hcond).2
      have hr1 : normTimeCol c r =
          r.map (fun p => if p.1 = c then (c, timeTransform (r.get c)) else p) := by
        rw [normTimeCol, if_pos hcond]
        rfl
      rw [hr1, List.map_map]
      apply List.map_congr_left
      intro p _
      obtain ⟨k, v⟩ := p
      simp only [Function.comp_apply]
      by_cases hpc : k = c
      · subst hpc
        rw [if_pos rfl]
        rw [if_neg (fun hx => hc_not hx.1)]
        rw [if_pos ⟨List.mem_cons_self _ _, htr⟩]
      · rw [if_neg hpc]
        by_cases hmem : k ∈ tcs ∧ (r.get k).truthy = true
        · rw [if_pos hmem, if_pos ⟨List.mem_cons_of_mem c hmem.1, hmem.2⟩]
        · rw [if_neg hmem,
            if_neg (fun hx => hmem ⟨(List.mem_cons.mp hx.1).resolve_left hpc, hx.2⟩)]
    · have hr1 : normTimeCol c r = r := normTimeCol_absent hcond
      rw [hr1]
      apply List.map_congr_left
      intro p hp
      obtain ⟨k, v⟩ := p
      by_cases hpc : k = c
      · subst hpc
        have hfalse : ¬(r.get k).truthy = true := by
          intro htr
          exact hcond (by rw [hasKey_of_mem hp, htr]; rfl)
        rw [if_neg (fun hx => hfalse hx.2), if_neg (fun hx => hfalse hx.2)]
      · by_cases hmem : k ∈ tcs ∧ (r.get k).truthy = true
        · rw [if_pos hmem, if_pos ⟨List.mem_cons_of_mem c hmem.1, hmem.2⟩]
        · rw [if_neg hmem,
            if_neg (fun hx => hmem ⟨(List.mem_cons.mp hx.1).resolve_left hpc, hx.2⟩)]

theorem foldNum_map (ncs : List String) :
    ∀ (r : Rec), ncs.Nodup →
      ncs.foldl (fun acc c => normNumCol c acc) r =
        r.map (fun p => if p.1 ∈ ncs
          then (p.1, normalize_numeric_value (r.get p.1)) else p) := by
  induction ncs with
  | nil =>
    intro r _
    simp
  | cons c ncs ih =>
    intro r hnd
    obtain ⟨hc_not, hnd'⟩ := List.nodup_cons.mp hnd
    rw [List.foldl_cons, ih (normNumCol c r) hnd']
    have hget : ∀ k, k ∈ ncs → (normNumCol c r).get k = r.get k := by
      intro k hk
      refine get_normNumCol_ne ?_ r
      intro hck
      exact hc_not (hck ▸ hk)
    have step2 : (normNumCol c r).map (fun p =>
        if p.1 ∈ ncs then (p.1, normalize_numeric_value ((normNumCol c r).get p.1)) else p) =
      (normNumCol c r).map (fun p =>
        if p.1 ∈ ncs then (p.1, normalize_numeric_value (r.get p.1)) else p) := by
      apply List.map_congr_left
      intro p _
      by_cases hmem : p.1 ∈ ncs
      · rw [hget p.1 hmem]
      · rw [if_neg hmem, if_neg hmem]
    rw [step2]
    by_cases hcond : r.hasKey c = true
    · have hr1 : normNumCol c r =
          r.map (fun p => if p.1 = c then (c, normalize_numeric_value (r.get c)) else p) := by
        rw [normNumCol, if_pos hcond]
        rfl
      rw [hr1, List.map_map]
      apply List.map_congr_left
      intro p _
      obtain ⟨k, v⟩ := p
      simp only [Function.comp_apply]
      by_cases hpc : k = c
      · subst hpc
        rw [if_pos rfl]
        rw [if_neg hc_not]
        rw [if_pos (List.mem_cons_self _ _)]
      · rw [if_neg hpc]
        by_cases hmem : k ∈ ncs
        · rw [if_pos hmem, if_pos (List.mem_cons_of_mem c hmem)]
        · rw [if_neg hmem, if_neg (fun hx => hmem ((List.mem_cons.mp hx).resolve_left hpc))]
    · have hr1 : normNumCol c r = r := normNumCol_absent hcond
      rw [hr1]
      apply List.map_congr_left
      intro p hp
      obtain ⟨k, v⟩ := p
      by_cases hpc : k = c
      · exact absurd (hpc ▸ hasKey_of_mem hp) hcond
      · by_cases hmem : k ∈ ncs
        · rw [if_pos hmem, if_pos (List.mem_cons_of_mem c hmem)]
        · rw [if_neg hmem, if_neg (fun hx => hmem ((List.mem_cons.mp hx).resolve_left hpc))]

theorem get_foldTime_ne {k : String} :
    ∀ (tcs : List String) (r : Rec), (∀ c ∈ tcs, c ≠ k) →
      ((tcs.foldl (fun acc c => normTimeCol c acc) r).get k) = r.get k := by
  intro tcs
  induction tcs with
  | nil => intro r _; rfl
  | cons c tcs ih =>
    intro r h
    rw [List.foldl_cons, ih (normTimeCol c r) (fun c' hc' => h c' (List.mem_cons_of_mem c hc')),
      get_normTimeCol_ne (h c (List.mem_cons_self c tcs)) r]

/-- The field-wise description of `normalize_record`: every entry of the
copy keeps its key; an entry under a truthy time column receives the
`to_utc`-transform of that column's value, an entry under a numeric
column receives the `normalize_numeric` of that column's value, and
every other entry is returned unchanged. -/
theorem normalize_record_map (r : Rec) :
    normalize_record r = r.map (fun p =>
      if p.1 ∈ TIME_COLUMNS ∧ (r.get p.1).truthy = true
        then (p.1, timeTransform (r.get p.1))
      else if p.1 ∈ NUMERIC_COLUMNS
        then (p.1, normalize_numeric_value (r.get p.1))
      else p) := by
  have hdisj : ∀ k : String, k ∈ NUMERIC_COLUMNS → k ∉ TIME_COLUMNS := by decide
  rw [normalize_record, foldNum_map NUMERIC_COLUMNS _ (by decide)]
  have hg : ∀ k : String, k ∈ NUMERIC_COLUMNS →
      ((TIME_COLUMNS.foldl (fun acc c => normTimeCol c acc) r).get k) = r.get k := by
    intro k hk
    refine get_foldTime_ne TIME_COLUMNS r ?_
    intro c hc hck
    exact hdisj k hk (hck ▸ hc)
  have step1 : (TIME_COLUMNS.foldl (fun acc c => normTimeCol c acc) r).map
      (fun p => if p.1 ∈ NUMERIC_COLUMNS
        then (p.1, normalize_numeric_value
          ((TIME_COLUMNS.foldl (fun acc c => normTimeCol c acc) r).get p.1)) else p) =
    (TIME_COLUMNS.foldl (fun acc c => normTimeCol c acc) r).map
      (fun p => if p.1 ∈ NUMERIC_COLUMNS
        then (p.1, normalize_numeric_value (r.get p.1)) else p) := by
    apply List.map_congr_left
    intro p _
    by_cases hmem : p.1 ∈ NUMERIC_COLUMNS
    · rw [hg p.1 hmem]
    · rw [if_neg hmem, if_neg hmem]
  rw [step1, foldTime_map TIME_COLUMNS r (by decide), List.map_map]
  apply List.map_congr_left
  intro p _
  obtain ⟨k, v⟩ := p
  simp only [Function.comp_apply]
  by_cases ht : k ∈ TIME_COLUMNS ∧ (r.get k).truthy = true
  · rw [if_pos ht]
    rw [if_neg (fun hn => hdisj k hn ht.1), if_pos ht]
  · rw [if_neg ht, if_neg ht]

/-! ## Lemmas: dialect detection and structure validation -/

theorem lookupLast_none_of_not_hasKey {k : String} :
    ∀ {kvs : List (String × JVal)}, JVal.hasKeyO kvs k = false →
      JVal.lookupLast kvs k = none := by
  intro kvs
  induction kvs with
  | nil => intro _; rfl
  | cons p rest ih =>
    intro h
    rw [JVal.hasKeyO, List.any_cons, Bool.or_eq_false_iff] at h
    obtain ⟨h1, h2⟩ := h
    rw [JVal.lookupLast, ih h2]
    rw [if_neg (by simpa using h1)]

theorem lookupLast_isSome_of_hasKey {k : String} :
    ∀ {kvs : List (String × JVal)}, JVal.hasKeyO kvs k = true →
      (JVal.lookupLast kvs k).isSome = true := by
  intro kvs
  induction kvs with
  | nil => intro h; exact Bool.noConfusion h
  | cons p rest ih =>
    intro h
    rw [JVal.hasKeyO, List.any_cons, Bool.or_eq_true] at h
    rw [JVal.lookupLast]
    by_cases hr : JVal.hasKeyO rest k = true
    · obtain ⟨w, hw⟩ := Option.isSome_iff_exists.mp (ih hr)
      rw [hw]
      rfl
    · rw [lookupLast_none_of_not_hasKey (Bool.of_not_eq_true hr)]
      rcases h with h | h
      · rw [if_pos (by simpa using h)]
        rfl
      · exact absurd h hr

theorem flatMap_semanticSegments :
    ∀ (kvs : List (String × JVal)), (kvs.map Prod.fst).Nodup →
      JVal.hasKeyO kvs "semanticSegments.item" = false →
      JVal.hasKeyO kvs "semanticSegments" = true →
      ∀ {segs : List JVal},
        (JVal.lookupLast kvs "semanticSegments").getD (.jarr []) = .jarr segs →
        (kvs.flatMap (fun p =>
          if p.1 = "semanticSegments" then
            match p.2 with
            | JVal.jarr xs => xs
            | JVal.jobj inner =>
              inner.flatMap (fun q => if q.1 = "item" then [q.2] else [])
            | _ => []
          else if p.1 = "semanticSegments.item" then [p.2]
          else [])) = segs := by
  intro kvs
  induction kvs with
  | nil => intro _ _ h _ _; exact Bool.noConfusion h
  | cons p rest ih =>
    intro hnd hitem hk segs hval
    rw [List.map_cons] at hnd
    obtain ⟨hp_not, hnd'⟩ := List.nodup_cons.mp hnd
    rw [JVal.hasKeyO, List.any_cons, Bool.or_eq_false_iff] at hitem
    obtain ⟨hitem1, hitem2⟩ := hitem
    have hitem2' : JVal.hasKeyO rest "semanticSegments.item" = false := hitem2
    have hni : ¬(p.1 = "semanticSegments.item") := by simpa using hitem1
    rw [List.flatMap_cons]
    rw [JVal.lookupLast] at hval
    by_cases hkey : p.1 = "semanticSegments"
    · have hrest : JVal.hasKeyO rest "semanticSegments" = false := by
        rw [JVal.hasKeyO, List.any_eq_false]
        intro q hq
        simp only [decide_eq_true_eq]
        intro hq1
        exact hp_not (by rw [← hkey] at hq1; exact hq1 ▸ List.mem_map_of_mem Prod.fst hq)
      have hflat : rest.flatMap (fun p =>
          if p.1 = "semanticSegments" then
            match p.2 with
            | JVal.jarr xs => xs
            | JVal.jobj inner =>
              inner.flatMap (fun q => if q.1 = "item" then [q.2] else [])
            | _ => []
          else if p.1 = "semanticSegments.item" then [p.2]
          else []) = [] := by
        rw [List.flatMap_eq_nil_iff]
        intro q hq
        have hq2 : ¬(q.1 = "semanticSegments") := fun hq1 =>
          hp_not (by rw [← hkey] at hq1; exact hq1 ▸ List.mem_map_of_mem Prod.fst hq)
        have hq3 : ¬(q.1 = "semanticSegments.item") := by
          have h4 := List.any_eq_false.mp hitem2' q hq
          simpa using h4
        rw [if_neg hq2, if_neg hq3]
      rw [hflat, List.append_nil]
      rw [lookupLast_none_of_not_hasKey hrest] at hval
      dsimp only at hval
      rw [if_pos hkey] at hval
      simp only [Option.getD_some] at hval
      rw [if_pos hkey, hval]
    · have hrest : JVal.hasKeyO rest "semanticSegments" = true := by
        rw [JVal.hasKeyO, List.any_cons, Bool.or_eq_true] at hk
        rcases hk with h | h
        · exact absurd (by simpa using h) hkey
        · exact h
      obtain ⟨w, hw⟩ := Option.isSome_iff_exists.mp (lookupLast_isSome_of_hasKey hrest)
      rw [hw] at hval
      dsimp only at hval
      rw [if_neg hkey, if_neg hni, List.nil_append]
      exact ih hnd' hitem2' hrest (by rw [hw]; exact hval)

theorem streamItems_android {kvs : List (String × JVal)}
    (hnd : (kvs.map Prod.fst).Nodup)
    (hitem : JVal.hasKeyO kvs "semanticSegments.item" = false)
    (hk : JVal.hasKeyO kvs "semanticSegments" = true)
    {segs : List JVal}
    (hval : (JVal.lookupLast kvs "semanticSegments").getD (.jarr []) = .jarr segs) :
    streamItems (.jobj kvs) .android = segs := by
  rw [streamItems]
  exact flatMap_semanticSegments kvs hnd hitem hk hval

theorem processAll_cons {f : JVal → String → Option (List Rec) × List Msg}
    {u : String} {x : JVal} {rs : List Rec} {ms : List Msg}
    (h1 : f x u = (some rs, ms)) (xs : List JVal) :
    processAll f u (x :: xs) =
      ((processAll f u xs).1.map (rs ++ ·), ms ++ (processAll f u xs).2) := by
  rw [processAll, h1]

theorem detect_format_android {kvs : List (String × JVal)}
    (hk : JVal.hasKeyO kvs "semanticSegments" = true) :
    detect_format (.jobj kvs) = (some .android, []) := by
  rw [detect_format]
  simp only [hk]
  rfl

theorem detect_format_iphone {kvs : List (String × JVal)} {rest : List JVal}
    (h2 : (((JVal.jobj kvs : JVal) :: rest).take 3).all
      (fun x => match x with | JVal.jobj _ => true | _ => false) = true)
    (h3 : JVal.hasKeyO kvs "startTime" = true) :
    detect_format (.jarr (.jobj kvs :: rest)) = (some .iphone, []) := by
  rw [detect_format]
  simp only [List.isEmpty_cons, Bool.not_false, Bool.true_and, h2, h3, Bool.and_self]
  rfl

theorem validate_android_true {kvs : List (String × JVal)} {segs : List JVal}
    (hk : JVal.hasKeyO kvs "semanticSegments" = true)
    (hseg : (JVal.lookupLast kvs "semanticSegments").getD (.jarr []) = .jarr segs) :
    (validate_json_structure (.jobj kvs) .android).1 = true := by
  rw [validate_json_structure]
  simp only [hk, if_true, hseg]
  split <;> rfl

theorem validate_iphone_true {kvs : List (String × JVal)} {rest : List JVal}
    (hk : JVal.hasKeyO kvs "startTime" = true) :
    (validate_json_structure (.jarr (.jobj kvs :: rest)) .iphone).1 = true := by
  rw [validate_json_structure]
  simp only [hk, if_true]

theorem parse_json_data_eq {d : JVal} {f : Fmt} {u : String} {ms0 : List Msg}
    {recs : List Rec} {ms2 : List Msg}
    (h1 : detect_format d = (some f, ms0))
    (h2 : (validate_json_structure d f).1 = true)
    (h3 : processAll (unitProcessor f) u (bufferedItems d f) = (some recs, ms2)) :
    (parse_json_data d u).1 = recs := by
  rw [parse_json_data, h1]
  dsimp only
  rcases hvs : validate_json_structure d f with ⟨b, ms1⟩
  rw [hvs] at h2
  cases b
  · exact absurd h2 (by simp)
  · dsimp only
    rw [h3]

/-- "Well-formed input small enough to buffer" (the hypothesis of the
streaming/buffered equivalence): the document is one of the two container
shapes the parsers recognize, the buffered path's detection and structure
checks accept it, no top-level key of an Android document is duplicated
(`json.loads` would keep only the last copy of a duplicated
`semanticSegments` while the `ijson` stream replays each copy), no
top-level key is literally named `"semanticSegments.item"` (`ijson` joins
path components with an unescaped `'.'`, so such a key's value is
replayed as a unit the buffered dict lookup never sees), and every
vendor-native unit processes without an escaping exception (the streaming
generator propagates exceptions to its consumer, the buffered path
swallows them). -/
def wellFormed (d : JVal) (u : String) : Bool :=
  match d with
  | .jobj kvs =>
    decide ((kvs.map Prod.fst).Nodup) &&
    !JVal.hasKeyO kvs "semanticSegments.item" &&
    JVal.hasKeyO kvs "semanticSegments" &&
    (match (JVal.lookupLast kvs "semanticSegments").getD (.jarr []) with
     | .jarr segs => (processAll process_android_segment u segs).1.isSome
     | _ => false)
  | .jarr xs =>
    !xs.isEmpty &&
    (xs.take 3).all (fun x => match x with | .jobj _ => true | _ => false) &&
    (match xs.head? with
     | some (JVal.jobj kvs) => JVal.hasKeyO kvs "startTime"
     | _ => false) &&
    (processAll process_iphone_item u xs).1.isSome
  | _ => false

/-- **C2.** For every well-formed document small enough to buffer, the
streaming entry point (`parse_json_stream` over a seekable source) yields
some list of canonical records, and that list agrees as a multiset with
the output of the buffered entry point (`parse_json_data`) for the same
owner identifier. -/
theorem stream_matches_buffered (d : JVal) (u : String)
    (h : wellFormed d u = true) :
    ∃ l : List Rec, (parse_json_stream d u).1 = some l ∧
      (l : Multiset Rec) = ((parse_json_data d u).1 : Multiset Rec) := by
  match d with
  | .jnull | .jbool _ | .jnum _ | .jstr _ => exact Bool.noConfusion h
  | .jobj kvs =>
    rw [wellFormed] at h
    simp only [Bool.and_eq_true] at h
    obtain ⟨⟨⟨hnd, hitem⟩, hk⟩, hmatch⟩ := h
    have hnd' := of_decide_eq_true hnd
    have hitem' : JVal.hasKeyO kvs "semanticSegments.item" = false := by
      simpa using hitem
    rcases hval : (JVal.lookupLast kvs "semanticSegments").getD (.jarr []) with
      _ | _ | _ | _ | segs | _ <;> rw [hval] at hmatch <;> dsimp only at hmatch <;>
      try exact Bool.noConfusion hmatch
    rcases hpa : processAll process_android_segment u segs with ⟨o, ms2⟩
    rw [hpa] at hmatch
    cases o with
    | none => exact Bool.noConfusion hmatch
    | some recs =>
      have hbuf : bufferedItems (.jobj kvs) .android = segs := by
        rw [bufferedItems, hval]
      have hstream : parse_json_stream (.jobj kvs) u = (some recs, ms2) := by
        rw [parse_json_stream]
        show processAll process_android_segment u (streamItems (.jobj kvs) .android) = _
        rw [streamItems_android hnd' hitem' hk hval]
        exact hpa
      have h3' : processAll (unitProcessor .android) u (bufferedItems (.jobj kvs) .android)
          = (some recs, ms2) := by
        show processAll process_android_segment u (bufferedItems (.jobj kvs) .android) = _
        rw [hbuf]
        exact hpa
      have hdata : (parse_json_data (.jobj kvs) u).1 = recs :=
        parse_json_data_eq (detect_format_android hk) (validate_android_true hk hval) h3'
      exact ⟨recs, by rw [hstream], by rw [hdata]⟩
  | .jarr xs =>
    rw [wellFormed] at h
    simp only [Bool.and_eq_true] at h
    obtain ⟨⟨⟨hne, hall⟩, hfirst⟩, hproc⟩ := h
    cases xs with
    | nil => exact Bool.noConfusion hne
    | cons x0 rest =>
      cases x0 with
      | jnull => exact Bool.noConfusion hfirst
      | jbool b => exact Bool.noConfusion hfirst
      | jnum q => exact Bool.noConfusion hfirst
      | jstr s => exact Bool.noConfusion hfirst
      | jarr ys => exact Bool.noConfusion hfirst
      | jobj kvs =>
        rcases hpa : processAll process_iphone_item u (JVal.jobj kvs :: rest) with ⟨o, ms2⟩
        rw [hpa] at hproc
        cases o with
        | none => exact Bool.noConfusion hproc
        | some recs =>
          have hstream : parse_json_stream (.jarr (.jobj kvs :: rest)) u = (some recs, ms2) := by
            rw [parse_json_stream]
            show processAll process_iphone_item u (JVal.jobj kvs :: rest) = _
            exact hpa
          have h3' : processAll (unitProcessor .iphone) u
              (bufferedItems (.jarr (.jobj kvs :: rest)) .iphone) = (some recs, ms2) := by
            show processAll process_iphone_item u (JVal.jobj kvs :: rest) = _
            exact hpa
          have hdata : (parse_json_data (.jarr (.jobj kvs :: rest)) u).1 = recs :=
            parse_json_data_eq (detect_format_iphone hall hfirst)
              (validate_iphone_true hfirst) h3'
          exact ⟨recs, by rw [hstream], by rw [hdata]⟩

/-- Two-segment Android document used as the concrete instance of the
streaming/buffered equivalence. -/
def c2doc : JVal :=
  .jobj [("semanticSegments", .jarr [
    .jobj [("startTime", .jstr "2023-01-01T00:00:00Z"),
           ("endTime", .jstr "2023-01-01T01:00:00Z"),
           ("visit", .jobj [
              ("topCandidate", .jobj [("placeId", .jstr "p1"),
                 ("placeLocation", .jobj [("latLng", .jstr "35.0°, 139.0°")])]),
              ("probability", .jnum (mkRat 9 10))])]])]

/-- Concrete instance of the streaming/buffered equivalence. -/
theorem stream_matches_buffered_witness :
    ∃ l : List Rec, (parse_json_stream c2doc "alice").1 = some l ∧
      (l : Multiset Rec) = ((parse_json_data c2doc "alice").1 : Multiset Rec) :=
  stream_matches_buffered c2doc "alice" (by decide)

/-! ## Failure records of the buffered entry point -/

/-- The iPhone test of `detect_format`, as a standalone predicate (used
only to reason about the detector's failure branch). -/
def iphoneHitCond (xs : List JVal) : Bool :=
  !xs.isEmpty &&
  (xs.take 3).all (fun x => match x with | JVal.jobj _ => true | _ => false) &&
  (match xs with
   | JVal.jobj kvs :: _ => JVal.hasKeyO kvs "startTime"
   | _ => false)

theorem detect_none_msgs {d : JVal} {ms : List Msg}
    (h : detect_format d = (none, ms)) : ms = [.formatDetectError] := by
  cases d with
  | jnull => exact (congrArg Prod.snd h).symm
  | jbool b => exact (congrArg Prod.snd h).symm
  | jnum q => exact (congrArg Prod.snd h).symm
  | jstr s => exact (congrArg Prod.snd h).symm
  | jarr xs =>
    have h' : (if iphoneHitCond xs = true
        then ((some Fmt.iphone, []) : Option Fmt × List Msg)
        else (none, [Msg.formatDetectError])) = (none, ms) := h
    split_ifs at h' with hc
    · exact Option.noConfusion (congrArg Prod.fst h')
    · exact (congrArg Prod.snd h').symm
  | jobj kvs =>
    have h' : (if JVal.hasKeyO kvs "semanticSegments" = true
        then ((some Fmt.android, []) : Option Fmt × List Msg)
        else (none, [Msg.formatDetectError])) = (none, ms) := h
    split_ifs at h' with hc
    · exact Option.noConfusion (congrArg Prod.fst h')
    · exact (congrArg Prod.snd h').symm

theorem validate_false_msgs {d : JVal} {f : Fmt} {msgs : List Msg}
    (hv : validate_json_structure d f = (false, msgs)) :
    summaryErrors msgs ≠ [] := by
  rw [validate_json_structure.eq_def] at hv
  repeat' split at hv
  all_goals injection hv with h1 h2
  all_goals
    first
    | exact Bool.noConfusion h1
    | (rw [← h2]; decide)

/-- **C10.** Whenever format detection fails or structure validation
rejects the document, the buffered entry point `parse_json_data` returns
the empty record list — its `try/except` converts the raised error into a
normal return, so no exception reaches the caller — and the failure is
visible in the validator's summary: the accumulated messages contain at
least one error. -/
theorem parse_json_data_failure (d : JVal) (u : String)
    (h : (detect_format d).1 = none ∨
         ∃ f : Fmt, (detect_format d).1 = some f ∧
           (validate_json_structure d f).1 = false) :
    (parse_json_data d u).1 = [] ∧
      summaryErrors (parse_json_data d u).2 ≠ [] := by
  rcases hdet : detect_format d with ⟨o, ms0⟩
  cases o with
  | none =>
    have hmsg : ms0 = [.formatDetectError] := detect_none_msgs hdet
    rw [parse_json_data, hdet]
    dsimp only
    subst hmsg
    exact ⟨rfl, by decide⟩
  | some f =>
    rcases h with h1 | ⟨f', hf', hval⟩
    · rw [hdet] at h1
      exact absurd h1 (by simp)
    · rw [hdet] at hf'
      dsimp only at hf'
      injection hf' with hff
      subst hff
      rcases hvs : validate_json_structure d f with ⟨b, ms1⟩
      rw [hvs] at hval
      cases b with
      | true => exact absurd hval (by simp)
      | false =>
        rw [parse_json_data, hdet]
        dsimp only
        rw [hvs]
        dsimp only
        refine ⟨rfl, ?_⟩
        have herr : summaryErrors ms1 ≠ [] := validate_false_msgs hvs
        rw [summaryErrors, List.filter_append]
        intro hnil
        exact herr (by
          rcases List.append_eq_nil.mp hnil with ⟨_, h4⟩
          rw [summaryErrors]
          exact h4)

/-- Concrete instance: a scalar document fails detection, yields no
records and an error in the summary. -/
theorem parse_json_data_failure_witness :
    (parse_json_data (.jnum 5) "u").1 = [] ∧
      summaryErrors (parse_json_data (.jnum 5) "u").2 ≠ [] :=
  parse_json_data_failure (.jnum 5) "u" (Or.inl (by decide))

/-! ## Claim instances: parsing, detection, coordinate parsing,
validation, normalization -/

/-- The Android document of the specification's worked example. -/
def c1doc : JVal :=
  .jobj [("semanticSegments", .jarr [
    .jobj [("startTime", .jstr "2023-01-01T00:00:00Z"),
           ("endTime", .jstr "2023-01-01T01:00:00Z"),
           ("visit", .jobj [
              ("topCandidate", .jobj [
                 ("placeId", .jstr "p1"),
                 ("semanticType", .jstr "Home"),
                 ("placeLocation", .jobj [("latLng", .jstr "35.0°, 139.0°")])]),
              ("probability", .jnum (mkRat 9 10))])]])]

/-- **C1.** Parsing the spec's example Android visit document with owner
`"alice"` in buffered mode yields exactly one record — of visit kind,
with latitude `35.0`, longitude `139.0`, place id `"p1"`, semantic type
`"Home"`, visit probability `0.9` and owner `"alice"` — and an empty
message log. -/
theorem android_visit_example :
    (parse_json_data c1doc "alice").1.length = 1 ∧
    ((parse_json_data c1doc "alice").1.headI.get "type" = .jstr "visit" ∧
     (parse_json_data c1doc "alice").1.headI.get "latitude" = .jnum 35 ∧
     (parse_json_data c1doc "alice").1.headI.get "longitude" = .jnum 139 ∧
     (parse_json_data c1doc "alice").1.headI.get "visit_placeId" = .jstr "p1" ∧
     (parse_json_data c1doc "alice").1.headI.get "visit_semanticType" = .jstr "Home" ∧
     (parse_json_data c1doc "alice").1.headI.get "visit_probability" = .jnum (mkRat 9 10) ∧
     (parse_json_data c1doc "alice").1.headI.get "username" = .jstr "alice") ∧
    (parse_json_data c1doc "alice").2 = [] := by decide

/-- `detect_format` as the spec's decision rules amend to: the iPhone
test also requires the first three items to all be mappings, not only
the first. -/
def detect_spec_amended (d : JVal) : Option Fmt × List Msg :=
  match d with
  | .jarr xs =>
    if iphoneHitCond xs then (some .iphone, []) else (none, [.formatDetectError])
  | .jobj kvs =>
    if JVal.hasKeyO kvs "semanticSegments" then (some .android, [])
    else (none, [.formatDetectError])
  | _ => (none, [.formatDetectError])

/-- **C5 counterexample.** A list whose first element is a mapping with
a `startTime` key — the spec's stated iPhone criterion — is rejected
with the unsupported-format error once a non-mapping appears among the
first three items; dropping that item makes the same prefix pass. -/
theorem detect_mixed_list_counterexample :
    detect_format (.jarr [.jobj [("startTime", .jnull)], .jnum 5]) =
      (none, [.formatDetectError]) ∧
    detect_format (.jarr [.jobj [("startTime", .jnull)]]) = (some .iphone, []) := by
  decide

/-- **C5 (amended).** `detect_format` decides exactly by the amended
rules: a nonempty list whose first up-to-three items are all mappings
and whose first item carries `startTime` is iPhone; otherwise a mapping
carrying `semanticSegments` is Android; everything else gets the
unsupported-format error (re-raised to the caller). -/
theorem detect_format_spec : ∀ d : JVal, detect_format d = detect_spec_amended d := by
  intro d
  cases d <;> rfl

/-- **C6.** The two concrete round-trips of the spec hold, and both
coordinate parsers are total with no mixed outcome: on every input they
return either a fully parsed pair or `(None, None)` — the embedding
returns a plain pair, so no exception escapes. -/
theorem coordinate_parsers :
    parse_android_coordinates (.jstr "45.0°, 90.0°") = (some 45, some 90) ∧
    extract_geo_coordinates (.jstr "geo:45.0,90.0") = (some 45, some 90) ∧
    (∀ v : JVal, parse_android_coordinates v = (none, none) ∨
      ∃ a b : ℚ, parse_android_coordinates v = (some a, some b)) ∧
    (∀ v : JVal, extract_geo_coordinates v = (none, none) ∨
      ∃ a b : ℚ, extract_geo_coordinates v = (some a, some b)) := by
  refine ⟨by decide, by decide, ?_, ?_⟩
  · intro v
    cases v <;> try (left; rfl)
    rw [parse_android_coordinates]
    split_ifs
    · left; rfl
    · repeat' split
      all_goals first | (left; rfl) | (right; exact ⟨_, _, rfl⟩)
  · intro v
    cases v <;> try (left; rfl)
    rw [extract_geo_coordinates]
    split_ifs
    · left; rfl
    · repeat' split
      all_goals first | (left; rfl) | (right; exact ⟨_, _, rfl⟩)

/-- **C7 counterexample.** A record whose latitude is far out of range
while its longitude key is absent (`None`) passes validation with no
warning: `validate_coordinates` returns `True` as soon as either value
is `None`, and the record-level guard only requires one of them to be
non-`None`. -/
theorem single_coordinate_validation_passes :
    validate_record [("latitude", .jnum 1000)] = (true, []) := by decide

/-- **C7 (amended).** When both coordinates are non-null numerics, record
validation accepts only values within `[-90, 90] × [-180, 180]`, and an
out-of-range pair makes the verdict false with a warning appended to the
session's warning list. (With only one coordinate non-null the check
passes unconditionally — the counterexample.) -/
theorem coordinate_validation_both_nonnull (a b : ℚ) (r : Rec)
    (hla : r.get "latitude" = .jnum a) (hlg : r.get "longitude" = .jnum b) :
    ((validate_record r).1 = true →
      MIN_LATITUDE ≤ a ∧ a ≤ MAX_LATITUDE ∧ MIN_LONGITUDE ≤ b ∧ b ≤ MAX_LONGITUDE) ∧
    (¬(MIN_LATITUDE ≤ a ∧ a ≤ MAX_LATITUDE ∧ MIN_LONGITUDE ≤ b ∧ b ≤ MAX_LONGITUDE) →
      (validate_record r).1 = false ∧
        summaryWarnings (validate_record r).2 ≠ []) := by
  rw [validate_record]
  dsimp only
  rw [hla, hlg]
  rw [if_pos (show (JVal.jnum a ≠ .jnull) ∨ (JVal.jnum b ≠ .jnull) from Or.inl (by simp))]
  rw [validate_coordinates]
  rw [if_neg (show ¬((JVal.jnum a = .jnull) ∨ (JVal.jnum b = .jnull)) from by simp)]
  dsimp only [pyFloat]
  by_cases hA : MIN_LATITUDE ≤ a ∧ a ≤ MAX_LATITUDE
  · by_cases hB : MIN_LONGITUDE ≤ b ∧ b ≤ MAX_LONGITUDE
    · rw [if_neg (not_not_intro hA), if_neg (not_not_intro hB)]
      constructor
      · intro _
        exact ⟨hA.1, hA.2, hB.1, hB.2⟩
      · intro hn
        exact absurd ⟨hA.1, hA.2, hB.1, hB.2⟩ hn
    · rw [if_neg (not_not_intro hA), if_pos hB]
      constructor
      · intro hv
        simp at hv
      · intro _
        refine ⟨by simp, ?_⟩
        simp [summaryWarnings, List.filter_append, Msg.isError]
  · rw [if_pos hA]
    constructor
    · intro hv
      simp at hv
    · intro _
      refine ⟨by simp, ?_⟩
      simp [summaryWarnings, List.filter_append, Msg.isError]

/-- Concrete instance: latitude `91` with longitude `0` is rejected with
a warning. -/
theorem coordinate_validation_both_nonnull_witness :
    (validate_record [("latitude", .jnum 91), ("longitude", .jnum 0)]).1 = false ∧
      summaryWarnings (validate_record [("latitude", .jnum 91), ("longitude", .jnum 0)]).2 ≠ [] :=
  (coordinate_validation_both_nonnull 91 0
    [("latitude", .jnum 91), ("longitude", .jnum 0)] (by decide) (by decide)).2
    (by decide)

/-- **C8.** `normalize_record` applied a second time to its own output
returns that output unchanged, for every input record — in particular
for the already-normalized records of the claim (UTC ISO-8601 time
strings, numeric fields floats or null). -/
theorem normalize_record_reapplication :
    ∀ r : Rec, normalize_record (normalize_record r) = normalize_record r :=
  normalize_record_idem

/-- `normalize_record` as the spec's sentence describes it word for
word: `to_utc` applied to every time column unconditionally, with no
truthiness guard. -/
def normalize_record_spec (r : Rec) : Rec :=
  r.map (fun p =>
    if p.1 ∈ TIME_COLUMNS then (p.1, timeTransform (r.get p.1))
    else if p.1 ∈ NUMERIC_COLUMNS then (p.1, normalize_numeric_value (r.get p.1))
    else p)

/-- **C9 counterexample.** A record whose `start_time` is the empty
string is returned unchanged by the code (falsy values skip the time
conversion), while the spec's unconditional description would null the
field (`to_utc("")` fails). -/
theorem normalize_record_empty_time_counterexample :
    normalize_record [("start_time", .jstr "")] = [("start_time", .jstr "")] ∧
    normalize_record_spec [("start_time", .jstr "")] = [("start_time", .jnull)] := by
  decide

/-- **C9 (amended).** `normalize_record` returns a copy in which an
entry under a time column is rewritten by `to_utc` exactly when its
value is truthy, an entry under a numeric column is rewritten by
`normalize_numeric`, and every other entry is kept; the argument itself
is never mutated (the model is pure, mirroring `record.copy()`). -/
theorem normalize_record_fieldwise (r : Rec) :
    normalize_record r = r.map (fun p =>
      if p.1 ∈ TIME_COLUMNS ∧ (r.get p.1).truthy = true
        then (p.1, timeTransform (r.get p.1))
      else if p.1 ∈ NUMERIC_COLUMNS
        then (p.1, normalize_numeric_value (r.get p.1))
      else p) :=
  normalize_record_map r

/-! ## A document with one valid and one coordinate-unparsable segment -/

/-- The structurally valid visit segment. -/
def gseg : JVal :=
  .jobj [("startTime", .jstr "2023-01-01T00:00:00Z"),
         ("endTime", .jstr "2023-01-01T01:00:00Z"),
         ("visit", .jobj [
            ("topCandidate", .jobj [("placeId", .jstr "p1"),
               ("placeLocation", .jobj [("latLng", .jstr "35.0°, 139.0°")])]),
            ("probability", .jnum (mkRat 9 10))])]

/-- The visit payload whose coordinate string is the parameter. -/
def bvisit (s : String) : JVal :=
  .jobj [("topCandidate", .jobj [("placeId", .jstr "p2"),
           ("placeLocation", .jobj [("latLng", .jstr s)])])]

/-- The key list of the segment carrying the coordinate string `s`. -/
def bsegKvs (s : String) : List (String × JVal) :=
  [("startTime", .jstr "2023-01-02T00:00:00Z"),
   ("endTime", .jstr "2023-01-02T01:00:00Z"),
   ("visit", bvisit s)]

/-- The segment carrying the coordinate string `s`. -/
def bseg (s : String) : JVal := .jobj (bsegKvs s)

/-- One valid segment followed by one whose coordinate string is `s`. -/
def c3doc (s : String) : JVal :=
  .jobj [("semanticSegments", .jarr [gseg, bseg s])]

/-- The normalized record of the valid segment. -/
def c3goodRec (u : String) : Rec :=
  [("type", .jstr "visit"),
   ("start_time", .jstr "2023-01-01T00:00:00+00:00"),
   ("end_time", .jstr "2023-01-01T01:00:00+00:00"),
   ("point_time", .jnull),
   ("latitude", .jnum 35), ("longitude", .jnum 139),
   ("visit_probability", .jnum (mkRat 9 10)),
   ("visit_placeId", .jstr "p1"), ("visit_semanticType", .jnull),
   ("activity_distanceMeters", .jnull), ("activity_type", .jnull),
   ("activity_probability", .jnull),
   ("username", .jstr u),
   ("_gpx_data_source", .jnull), ("_gpx_track_name", .jnull),
   ("_gpx_elevation", .jnull), ("_gpx_speed", .jnull),
   ("_gpx_point_sequence", .jnull)]

/-- The normalized record of the unparsable-coordinate segment: both
coordinate fields are null, everything else is intact. -/
def c3badRec (u : String) : Rec :=
  [("type", .jstr "visit"),
   ("start_time", .jstr "2023-01-02T00:00:00+00:00"),
   ("end_time", .jstr "2023-01-02T01:00:00+00:00"),
   ("point_time", .jnull),
   ("latitude", .jnull), ("longitude", .jnull),
   ("visit_probability", .jnull),
   ("visit_placeId", .jstr "p2"), ("visit_semanticType", .jnull),
   ("activity_distanceMeters", .jnull), ("activity_type", .jnull),
   ("activity_probability", .jnull),
   ("username", .jstr u),
   ("_gpx_data_source", .jnull), ("_gpx_track_name", .jnull),
   ("_gpx_elevation", .jnull), ("_gpx_speed", .jnull),
   ("_gpx_point_sequence", .jnull)]

theorem parse_json_data_eq_full {d : JVal} {f : Fmt} {u : String} {ms0 ms1 : List Msg}
    {recs : List Rec} {ms2 : List Msg}
    (h1 : detect_format d = (some f, ms0))
    (h2 : validate_json_structure d f = (true, ms1))
    (h3 : processAll (unitProcessor f) u (bufferedItems d f) = (some recs, ms2)) :
    parse_json_data d u = (recs, ms0 ++ ms1 ++ ms2) := by
  rw [parse_json_data, h1]
  dsimp only
  rw [h2]
  dsimp only
  rw [h3]

/-- **C3 counterexample.** With the unparsable coordinate string
`"abc"`, the document of one valid and one coordinate-broken segment
parses into TWO records with NO message at all — not into one record
plus a warning. -/
theorem unparsable_coordinate_no_warning :
    (parse_json_data (c3doc "abc") "u").1.length = 2 ∧
    (parse_json_data (c3doc "abc") "u").2 = [] := by decide

/-- **C3 (amended).** For every coordinate string on which
`parse_android_coordinates` fails, the two-segment document parses —
without aborting — into the valid record AND a second record whose two
coordinate fields are null, with no warning recorded: an unparsable
coordinate string yields `(None, None)`, and `validate_coordinates`
accepts a null coordinate. -/
theorem process_visit_only {skvs : List (String × JVal)} {u : String}
    {rs : List Rec} {ms : List Msg}
    (h1 : JVal.hasKeyO skvs "timelinePath" = false)
    (h2 : JVal.hasKeyO skvs "visit" = true)
    (h3 : JVal.hasKeyO skvs "activity" = false)
    (hv : androidVisit ((JVal.lookupLast skvs "visit").getD .jnull)
        ((JVal.lookupLast skvs "startTime").getD .jnull)
        ((JVal.lookupLast skvs "endTime").getD .jnull) u = (some rs, ms)) :
    process_android_segment (.jobj skvs) u = (some (rs ++ []), ms ++ []) := by
  rw [process_android_segment.eq_def]
  dsimp only
  rw [if_neg (show ¬(JVal.hasKeyO skvs "timelinePath" = true) from by rw [h1]; simp)]
  dsimp only
  rw [if_pos h2]
  rw [hv]
  dsimp only
  rw [if_neg (show ¬(JVal.hasKeyO skvs "activity" = true) from by rw [h3]; simp)]
  rfl

theorem unparsable_coordinate_segment (s : String)
    (h : parse_android_coordinates (.jstr s) = (none, none)) :
    parse_json_data (c3doc s) "u" = ([c3goodRec "u", c3badRec "u"], []) := by
  have e1 : androidVisit ((JVal.lookupLast (bsegKvs s) "visit").getD .jnull)
      ((JVal.lookupLast (bsegKvs s) "startTime").getD .jnull)
      ((JVal.lookupLast (bsegKvs s) "endTime").getD .jnull) "u" =
      (some (finishRecord (baseRec "visit" (.jstr "2023-01-02T00:00:00Z")
          (.jstr "2023-01-02T01:00:00Z") .jnull
          (parse_android_coordinates (.jstr s)).1
          (parse_android_coordinates (.jstr s)).2
          .jnull (.jstr "p2") .jnull .jnull .jnull .jnull "u")).1,
       (finishRecord (baseRec "visit" (.jstr "2023-01-02T00:00:00Z")
          (.jstr "2023-01-02T01:00:00Z") .jnull
          (parse_android_coordinates (.jstr s)).1
          (parse_android_coordinates (.jstr s)).2
          .jnull (.jstr "p2") .jnull .jnull .jnull .jnull "u")).2) := rfl
  rw [h] at e1
  have e2 : androidVisit ((JVal.lookupLast (bsegKvs s) "visit").getD .jnull)
      ((JVal.lookupLast (bsegKvs s) "startTime").getD .jnull)
      ((JVal.lookupLast (bsegKvs s) "endTime").getD .jnull) "u" =
      (some [c3badRec "u"], []) := e1.trans (by decide)
  have k1 : JVal.hasKeyO (bsegKvs s) "timelinePath" = false := rfl
  have k2 : JVal.hasKeyO (bsegKvs s) "visit" = true := rfl
  have k3 : JVal.hasKeyO (bsegKvs s) "activity" = false := rfl
  have e4 : process_android_segment (bseg s) "u" = (some [c3badRec "u"], []) :=
    (process_visit_only k1 k2 k3 e2).trans (by decide)
  have hg : process_android_segment gseg "u" = (some [c3goodRec "u"], []) := by decide
  have e5 : processAll process_android_segment "u" [gseg, bseg s] =
      (some [c3goodRec "u", c3badRec "u"], []) := by
    rw [processAll_cons hg, processAll_cons e4]
    rfl
  have h3 : processAll (unitProcessor .android) "u" (bufferedItems (c3doc s) .android) =
      (some [c3goodRec "u", c3badRec "u"], []) := e5
  have hdet : detect_format (c3doc s) = (some .android, []) := rfl
  have hvs : validate_json_structure (c3doc s) .android = (true, []) := rfl
  exact (parse_json_data_eq_full hdet hvs h3).trans rfl

/-- Concrete instance of the amended statement at the coordinate string
`"abc"`. -/
theorem unparsable_coordinate_segment_witness :
    parse_json_data (c3doc "abc") "u" = ([c3goodRec "u", c3badRec "u"], []) :=
  unparsable_coordinate_segment "abc" (by decide)

/-! ## iPhone activity endpoints: emission is gated on the coordinate
parse AND Python truthiness AND validation -/

/-- Key list of the activity payload carrying the endpoint string. -/
def c4actKvs (sa : String) : List (String × JVal) := [("start", .jstr sa)]

/-- Key list of the iPhone activity item. -/
def c4itemKvs (sa : String) : List (String × JVal) :=
  [("activity", .jobj (c4actKvs sa))]

/-- An iPhone item holding one activity whose start endpoint string is
the parameter (no visit, no end endpoint, no timestamps). -/
def c4item (sa : String) : JVal := .jobj (c4itemKvs sa)

/-- The normalized record emitted for the start endpoint when the
coordinates survive every gate. -/
def c4rec (a b : ℚ) (u : String) : Rec :=
  [("type", .jstr "activity_start"),
   ("start_time", .jnull), ("end_time", .jnull), ("point_time", .jnull),
   ("latitude", .jnum a), ("longitude", .jnum b),
   ("visit_probability", .jnull), ("visit_placeId", .jnull),
   ("visit_semanticType", .jnull),
   ("activity_distanceMeters", .jnull), ("activity_type", .jnull),
   ("activity_probability", .jnull),
   ("username", .jstr u),
   ("_gpx_data_source", .jnull), ("_gpx_track_name", .jnull),
   ("_gpx_elevation", .jnull), ("_gpx_speed", .jnull),
   ("_gpx_point_sequence", .jnull)]

/-- What `process_iphone_item` actually does with the activity item, as
a function of the endpoint's coordinate parse: nothing unless the parse
yields a pair that is also Python-truthy (both nonzero), and even then
the record is dropped again (with a warning) when a coordinate is out of
range. -/
def c4expected (c : Option ℚ × Option ℚ) (u : String) :
    Option (List Rec) × List Msg :=
  match c with
  | (some a, some b) =>
    if a = 0 ∨ b = 0 then (some [], [])
    else if ¬(MIN_LATITUDE ≤ a ∧ a ≤ MAX_LATITUDE) then (some [], [.latOutOfRange a])
    else if ¬(MIN_LONGITUDE ≤ b ∧ b ≤ MAX_LONGITUDE) then (some [], [.lngOutOfRange b])
    else (some [c4rec a b u], [])
  | _ => (some [], [])

/-- Reduction of `process_iphone_item` for a visit-less item with one
activity whose start endpoint resolves to `(some rs, ms)` and whose end
endpoint yields nothing. -/
theorem process_iphone_activity {skvs akvs : List (String × JVal)} {u : String}
    {rs : List Rec} {ms : List Msg}
    (h1 : JVal.hasKeyO skvs "visit" = false)
    (h2 : JVal.hasKeyO skvs "activity" = true)
    (hact : (JVal.lookupLast skvs "activity").getD .jnull = .jobj akvs)
    (hst : iphoneEndpoint akvs ((JVal.lookupLast akvs "topCandidate").getD (.jobj []))
        "start" "activity_start" ((JVal.lookupLast skvs "startTime").getD .jnull)
        ((JVal.lookupLast skvs "endTime").getD .jnull) u = (some rs, ms))
    (hend : iphoneEndpoint akvs ((JVal.lookupLast akvs "topCandidate").getD (.jobj []))
        "end" "activity_end" ((JVal.lookupLast skvs "startTime").getD .jnull)
        ((JVal.lookupLast skvs "endTime").getD .jnull) u = (some [], [])) :
    process_iphone_item (.jobj skvs) u = (some ([] ++ (rs ++ [])), [] ++ (ms ++ [])) := by
  rw [process_iphone_item.eq_def]
  dsimp only
  rw [if_neg (show ¬(JVal.hasKeyO skvs "visit" = true) from by rw [h1]; simp)]
  dsimp only
  rw [if_pos h2, hact]
  dsimp only
  rw [hst]
  dsimp only
  rw [hend]
  rfl

theorem c4_finish (a b : ℚ) (u : String) :
    finishRecord (baseRec "activity_start" .jnull .jnull .jnull (some a) (some b)
        .jnull .jnull .jnull .jnull .jnull .jnull u) =
      (if ¬(MIN_LATITUDE ≤ a ∧ a ≤ MAX_LATITUDE) then ([], [.latOutOfRange a])
       else if ¬(MIN_LONGITUDE ≤ b ∧ b ≤ MAX_LONGITUDE) then ([], [.lngOutOfRange b])
       else ([c4rec a b u], [])) := by
  have hnr : normalize_record (baseRec "activity_start" .jnull .jnull .jnull
      (some a) (some b) .jnull .jnull .jnull .jnull .jnull .jnull u) = c4rec a b u := by
    have hR : baseRec "activity_start" .jnull .jnull .jnull
        (some a) (some b) .jnull .jnull .jnull .jnull .jnull .jnull u = c4rec a b u := rfl
    have ht : List.foldl (fun acc col => normTimeCol col acc) (c4rec a b u)
        ["start_time", "end_time", "point_time"] = c4rec a b u := by
      have ht0 : ¬(((c4rec a b u).hasKey "start_time" &&
          ((c4rec a b u).get "start_time").truthy) = true) := fun hx => Bool.noConfusion hx
      rw [List.foldl_cons, normTimeCol_absent ht0]
      have ht1 : ¬(((c4rec a b u).hasKey "end_time" &&
          ((c4rec a b u).get "end_time").truthy) = true) := fun hx => Bool.noConfusion hx
      rw [List.foldl_cons, normTimeCol_absent ht1]
      have ht2 : ¬(((c4rec a b u).hasKey "point_time" &&
          ((c4rec a b u).get "point_time").truthy) = true) := fun hx => Bool.noConfusion hx
      rw [List.foldl_cons, normTimeCol_absent ht2]
      rw [List.foldl_nil]
    have hnum : List.foldl (fun acc col => normNumCol col acc) (c4rec a b u)
        ["latitude", "longitude", "activity_distanceMeters",
         "visit_probability", "activity_probability",
         "_gpx_elevation", "_gpx_speed", "_gpx_point_sequence"] = c4rec a b u := by
      rw [List.foldl_cons, normNumCol,
        if_pos (show (c4rec a b u).hasKey "latitude" = true from rfl),
        show (c4rec a b u).set "latitude"
          (normalize_numeric_value ((c4rec a b u).get "latitude")) = c4rec a b u from rfl]
      rw [List.foldl_cons, normNumCol,
        if_pos (show (c4rec a b u).hasKey "longitude" = true from rfl),
        show (c4rec a b u).set "longitude"
          (normalize_numeric_value ((c4rec a b u).get "longitude")) = c4rec a b u from rfl]
      rw [List.foldl_cons, normNumCol,
        if_pos (show (c4rec a b u).hasKey "activity_distanceMeters" = true from rfl),
        show (c4rec a b u).set "activity_distanceMeters"
          (normalize_numeric_value ((c4rec a b u).get "activity_distanceMeters")) = c4rec a b u from rfl]
      rw [List.foldl_cons, normNumCol,
        if_pos (show (c4rec a b u).hasKey "visit_probability" = true from rfl),
        show (c4rec a b u).set "visit_probability"
          (normalize_numeric_value ((c4rec a b u).get "visit_probability")) = c4rec a b u from rfl]
      rw [List.foldl_cons, normNumCol,
        if_pos (show (c4rec a b u).hasKey "activity_probability" = true from rfl),
        show (c4rec a b u).set "activity_probability"
          (normalize_numeric_value ((c4rec a b u).get "activity_probability")) = c4rec a b u from rfl]
      rw [List.foldl_cons, normNumCol,
        if_pos (show (c4rec a b u).hasKey "_gpx_elevation" = true from rfl),
        show (c4rec a b u).set "_gpx_elevation"
          (normalize_numeric_value ((c4rec a b u).get "_gpx_elevation")) = c4rec a b u from rfl]
      rw [List.foldl_cons, normNumCol,
        if_pos (show (c4rec a b u).hasKey "_gpx_speed" = true from rfl),
        show (c4rec a b u).set "_gpx_speed"
          (normalize_numeric_value ((c4rec a b u).get "_gpx_speed")) = c4rec a b u from rfl]
      rw [List.foldl_cons, normNumCol,
        if_pos (show (c4rec a b u).hasKey "_gpx_point_sequence" = true from rfl),
        show (c4rec a b u).set "_gpx_point_sequence"
          (normalize_numeric_value ((c4rec a b u).get "_gpx_point_sequence")) = c4rec a b u from rfl]
      rw [List.foldl_nil]
    rw [hR, normalize_record, TIME_COLUMNS, NUMERIC_COLUMNS, ht, hnum]
  have hvr : validate_record (c4rec a b u) =
      ((if ¬(MIN_LATITUDE ≤ a ∧ a ≤ MAX_LATITUDE) then (false, [Msg.latOutOfRange a])
        else if ¬(MIN_LONGITUDE ≤ b ∧ b ≤ MAX_LONGITUDE) then (false, [Msg.lngOutOfRange b])
        else (true, ([] : List Msg))).1 && true && true && true && true && true && true,
       (if ¬(MIN_LATITUDE ≤ a ∧ a ≤ MAX_LATITUDE) then (false, [Msg.latOutOfRange a])
        else if ¬(MIN_LONGITUDE ≤ b ∧ b ≤ MAX_LONGITUDE) then (false, [Msg.lngOutOfRange b])
        else (true, ([] : List Msg))).2 ++ [] ++ [] ++ [] ++ [] ++ [] ++ []) := rfl
  rw [finishRecord]
  rw [hnr, hvr]
  by_cases hA : MIN_LATITUDE ≤ a ∧ a ≤ MAX_LATITUDE
  · by_cases hB : MIN_LONGITUDE ≤ b ∧ b ≤ MAX_LONGITUDE
    · rw [if_neg (not_not_intro hA), if_neg (not_not_intro hB),
        if_neg (not_not_intro hA), if_neg (not_not_intro hB)]
      rfl
    · rw [if_neg (not_not_intro hA), if_pos hB,
        if_neg (not_not_intro hA), if_pos hB]
      rfl
  · rw [if_pos hA, if_pos hA]
    rfl

theorem c4expected_some (a b : ℚ) (u : String) :
    c4expected (some a, some b) u =
      (if a = 0 ∨ b = 0 then (some [], [])
       else if ¬(MIN_LATITUDE ≤ a ∧ a ≤ MAX_LATITUDE) then (some [], [.latOutOfRange a])
       else if ¬(MIN_LONGITUDE ≤ b ∧ b ≤ MAX_LONGITUDE) then (some [], [.lngOutOfRange b])
       else (some [c4rec a b u], [])) := rfl

/-- **C4 counterexample.** `geo:0.0,10.0` parses successfully into the
non-null pair `(0.0, 10.0)`, yet no activity endpoint record is emitted
and nothing is recorded: the `if start_lat and start_lng` guard treats
the float `0.0` as falsy. -/
theorem zero_coordinate_endpoint_dropped :
    extract_geo_coordinates (.jstr "geo:0.0,10.0") = (some 0, some 10) ∧
    process_iphone_item (c4item "geo:0.0,10.0") "u" = (some [], []) := by decide

/-- **C4 (amended).** For the activity item family, the endpoint record
is emitted exactly when the coordinate string parses to a pair that is
both non-null AND nonzero (Python truthiness) AND within the configured
ranges; a failed parse or a zero coordinate is silently omitted, while
an out-of-range parse is omitted WITH a warning (built, then dropped by
validation). -/
theorem iphone_endpoint_emission (sa u : String) :
    process_iphone_item (c4item sa) u =
      c4expected (extract_geo_coordinates (.jstr sa)) u := by
  have h1 : JVal.hasKeyO (c4itemKvs sa) "visit" = false := rfl
  have h2 : JVal.hasKeyO (c4itemKvs sa) "activity" = true := rfl
  have hact : (JVal.lookupLast (c4itemKvs sa) "activity").getD .jnull =
      .jobj (c4actKvs sa) := rfl
  have hend : iphoneEndpoint (c4actKvs sa)
      ((JVal.lookupLast (c4actKvs sa) "topCandidate").getD (.jobj []))
      "end" "activity_end" ((JVal.lookupLast (c4itemKvs sa) "startTime").getD .jnull)
      ((JVal.lookupLast (c4itemKvs sa) "endTime").getD .jnull) u = (some [], []) := rfl
  have e0 : iphoneEndpoint (c4actKvs sa)
      ((JVal.lookupLast (c4actKvs sa) "topCandidate").getD (.jobj []))
      "start" "activity_start" ((JVal.lookupLast (c4itemKvs sa) "startTime").getD .jnull)
      ((JVal.lookupLast (c4itemKvs sa) "endTime").getD .jnull) u =
      (if (match extract_geo_coordinates (.jstr sa) with
           | (some a, some b) => decide (a ≠ 0) && decide (b ≠ 0)
           | _ => false) = true then
        (some (finishRecord (baseRec "activity_start" .jnull .jnull .jnull
            (extract_geo_coordinates (.jstr sa)).1 (extract_geo_coordinates (.jstr sa)).2
            .jnull .jnull .jnull .jnull .jnull .jnull u)).1,
         (finishRecord (baseRec "activity_start" .jnull .jnull .jnull
            (extract_geo_coordinates (.jstr sa)).1 (extract_geo_coordinates (.jstr sa)).2
            .jnull .jnull .jnull .jnull .jnull .jnull u)).2)
       else (some [], [])) := rfl
  rcases hx : extract_geo_coordinates (.jstr sa) with ⟨oa, ob⟩
  rw [hx] at e0
  cases oa with
  | none =>
    dsimp only at e0
    rw [if_neg (fun hcc => Bool.noConfusion hcc)] at e0
    have hp := process_iphone_activity h1 h2 hact e0 hend
    exact hp.trans rfl
  | some a =>
    cases ob with
    | none =>
      dsimp only at e0
      rw [if_neg (fun hcc => Bool.noConfusion hcc)] at e0
      have hp := process_iphone_activity h1 h2 hact e0 hend
      exact hp.trans rfl
    | some b =>
      dsimp only at e0
      by_cases hz : a = 0 ∨ b = 0
      · have hcond : ¬((decide (a ≠ 0) && decide (b ≠ 0)) = true) := by
          rcases hz with hz | hz <;> simp [hz]
        rw [if_neg hcond] at e0
        have hp := process_iphone_activity h1 h2 hact e0 hend
        rw [c4expected_some a b u, if_pos hz]
        exact hp.trans rfl
      · have ha : a ≠ 0 := fun h0 => hz (Or.inl h0)
        have hb : b ≠ 0 := fun h0 => hz (Or.inr h0)
        rw [if_pos (show (decide (a ≠ 0) && decide (b ≠ 0)) = true from by simp [ha, hb])] at e0
        rw [c4_finish a b u] at e0
        rw [c4expected_some a b u, if_neg hz]
        by_cases hA : MIN_LATITUDE ≤ a ∧ a ≤ MAX_LATITUDE
        · by_cases hB : MIN_LONGITUDE ≤ b ∧ b ≤ MAX_LONGITUDE
          · rw [if_neg (not_not_intro hA), if_neg (not_not_intro hB)] at e0
            have hp := process_iphone_activity h1 h2 hact e0 hend
            rw [if_neg (not_not_intro hA), if_neg (not_not_intro hB)]
            exact hp.trans rfl
          · rw [if_neg (not_not_intro hA), if_pos hB] at e0
            have hp := process_iphone_activity h1 h2 hact e0 hend
            rw [if_neg (not_not_intro hA), if_pos hB]
            exact hp.trans rfl
        · rw [if_pos hA] at e0
          have hp := process_iphone_activity h1 h2 hact e0 hend
          rw [if_pos hA]
          exact hp.trans rfl
